import Mathlib

/-!
The call sequence of `main` in servoAfma6Point2DArtVelocity.cpp.

The program under study (`src/example/servo-afma6/servoAfma6Point2DArtVelocity.cpp`,
hardware build, lines 87-224) is one `try` block holding a straight-line
set-up phase, an unconditional `while(1)` loop and three statements after
the loop, followed by a `catch (...)` handler.

Every computation is done by the ViSP library, which is not part of the
file.  The embedding therefore keeps the library as an environment
(`World`) that answers each library call, in the order the calls are made,
either with the value the call produces or with an exception.  `main`
itself is translated statement by statement; every statement carries the
source line it comes from, and a run of `main` yields the log of the calls
it made, kept per phase (set-up, one log per loop iteration, statements
after the loop, handler).

Scope of the embedding: the statements written in `main`.  Destructors run
by scope exit or stack unwinding and the copy made by `v = ...` are not
events of the log.  Where C++ leaves the evaluation order of the arguments
of one call open (`dot.get_v()`, `dot.get_u()` in `displayCross`), the log
lists them left to right.  A library call either returns or raises; a call
that blocks for ever is outside the embedding.
-/

namespace ServoAfma6

/-- Payload of a library value (image, matrix, vector, feature, dot).  `main`
never computes on such a value, it only hands it from one call to the next,
so the payload is an uninterpreted list of numbers (the casts to
`unsigned int` of lines 125-126 and 190-191 are not applied to it). -/
abbrev Data := List Int

/-- Modelled from the spec: the control-law kinds of `vpServo` are declared by
the library (`visp/vpServo.h`, not under src/).  `main` names one of them;
`other` stands for every other value of the type. -/
inductive vpServoType
  | EYEINHAND_L_cVe_eJe
  | other (code : Nat)
  deriving DecidableEq, Repr

/-- Modelled from the spec: first argument of `setInteractionMatrixType`
(declared in `visp/vpServo.h`, not under src/): the value `main` names, and
the others. -/
inductive vpServoIteractionMatrixType
  | DESIRED
  | other (code : Nat)
  deriving DecidableEq, Repr

/-- Modelled from the spec: second argument of `setInteractionMatrixType`
(declared in `visp/vpServo.h`, not under src/): the value `main` names, and
the others. -/
inductive vpServoInversionType
  | PSEUDO_INVERSE
  | other (code : Nat)
  deriving DecidableEq, Repr

/-- Modelled from the spec: robot states of `vpRobot` (declared in
`visp/vpRobot.h`, not under src/): the value `main` names, and the others. -/
inductive vpRobotStateType
  | STATE_VELOCITY_CONTROL
  | other (code : Nat)
  deriving DecidableEq, Repr

/-- Modelled from the spec: control frames of `vpRobot` (declared in
`visp/vpRobot.h`, not under src/): the value `main` names, and the others. -/
inductive vpRobotControlFrameType
  | ARTICULAR_FRAME
  | other (code : Nat)
  deriving DecidableEq, Repr

/-- Modelled from the spec: colours of `vpColor` (declared by the library, not
under src/): the two `main` draws with, and the others. -/
inductive vpColor
  | blue
  | green
  | other (code : Nat)
  deriving DecidableEq, Repr

/-- Local objects of `main` that are built by a default constructor. -/
inductive Obj
  | robot | task | I | dot | cam | p | pd | cMe | cVe | eJe | v
  deriving DecidableEq, Repr

/-- One call made by `main`, with the arguments it passes.  The first group
are calls into the ViSP library (constructors, member functions, static
functions, and `operator<<` on library values).  The second group is console
output that involves no library code: `std::cout` on literals and integers,
and the trace macros.

Modelled from the spec: the macros `vpTRACE` and `vpERROR_TRACE` come from
`visp/vpDebug.h`, which is not under src/; the spec describes them as print
statements (the error trace, the error-norm print), so they are console
output of their arguments.  The gain `0.8` of line 169 is written as the
fraction 8/10. -/
inductive Call
  /- library calls -/
  | construct (o : Obj)
  | grabberCtor (input : Nat)
  | g_open (I : Data)
  | g_acquire (I : Data)
  | displayCtor (I : Data) (x y : Int) (title : String)
  | display (I : Data)
  | flush (I : Data)
  | dot_initTracking (I : Data)
  | dot_track (I : Data)
  | dot_get_v (dot : Data)
  | dot_get_u (dot : Data)
  | displayCross (I : Data) (i j : Data) (size : Nat) (col : vpColor)
  | create (p cam dot : Data)
  | p_set_Z (Z : Int)
  | pd_buildFrom (x y Z : Int)
  | setServo (t : vpServoType)
  | setInteractionMatrixType (m : vpServoIteractionMatrixType) (i : vpServoInversionType)
  | get_cVe
  | coutTwist (cVe : Data)
  | set_cVe (cVe : Data)
  | getClick (I : Data)
  | get_eJe
  | set_eJe (eJe : Data)
  | addFeature (p pd : Data)
  | setLambda (num den : Nat)
  | task_print
  | setRobotState (s : vpRobotStateType)
  | computeControlLaw
  | servoDisplay (cam I : Data)
  | v_t (v : Data)
  | coutRow (row : Data)
  | setVelocity (frame : vpRobotControlFrameType) (v : Data)
  | error_sumSquare
  | task_kill
  /- console output that involves no library value -/
  | cout (text : String)
  | coutIter (text : String) (iter : Int)
  | vpTRACE (text : String)
  | vpTRACE_f (format : String) (x : Data)
  | vpERROR_TRACE (text : String)
  deriving DecidableEq, Repr

/-- Answer of the library to one call: the value it produces (the out
parameter or the return value; ignored for a `void` call), or an exception,
tagged with its type. -/
inductive Reply
  | returns (d : Data)
  | throws (exn : Nat)
  deriving DecidableEq, Repr

/-- One entry of the log: the source line, the call, and how it ended. -/
structure Event where
  line : Nat
  call : Call
  result : Reply
  deriving DecidableEq, Repr

/-- The library and the hardware behind it: the answer to the `k`-th library
call of the run (counted from 0). -/
abbrev World := Nat → Reply

/-- Values of the local variables of `main` that hold library data. `dot_v`,
`dot_u`, `row` and `err` are the temporaries of lines 124-126, 189-191, 207
and 212. -/
structure Locals where
  I : Data
  dot : Data
  cam : Data
  p : Data
  pd : Data
  cMe : Data
  cVe : Data
  eJe : Data
  v : Data
  iter : Int
  dot_v : Data
  dot_u : Data
  row : Data
  err : Data
  deriving DecidableEq, Repr

/-- Locals before any declaration has run. -/
def Locals.start : Locals :=
  ⟨[], [], [], [], [], [], [], [], [], 0, [], [], [], []⟩

/-- A statement of `main`.
* `lib`: a library call, answered by the world; on a normal return `store`
  writes the produced value into the locals.
* `out`: console output of literals and integers through `std::cout`,
  `vpTRACE` or `vpERROR_TRACE`; it cannot raise.
* `assign`: an assignment to a local of built-in type. -/
inductive Stmt
  | lib (line : Nat) (call : Locals → Call) (store : Data → Locals → Locals)
  | out (line : Nat) (call : Locals → Call)
  | assign (line : Nat) (f : Locals → Locals)

/-- Machine state while a block runs. -/
structure State where
  locals : Locals
  calls : Nat
  log : List Event

/-- How a block ended. `unfinished` is only produced by a loop that used up
its iteration budget. -/
inductive Flow
  | normal
  | raised
  | unfinished
  deriving DecidableEq, Repr

/-- Execute one statement. -/
def execStmt (w : World) (st : State) : Stmt → Flow × State
  | .lib line call store =>
    match w st.calls with
    | .returns d =>
      (.normal, ⟨store d st.locals, st.calls + 1,
        st.log ++ [⟨line, call st.locals, .returns d⟩]⟩)
    | .throws x =>
      (.raised, ⟨st.locals, st.calls + 1,
        st.log ++ [⟨line, call st.locals, .throws x⟩]⟩)
  | .out line call =>
    (.normal, ⟨st.locals, st.calls, st.log ++ [⟨line, call st.locals, .returns []⟩]⟩)
  | .assign _ f => (.normal, ⟨f st.locals, st.calls, st.log⟩)

/-- Execute a block of statements; an exception leaves the block at once. -/
def execStmts (w : World) : List Stmt → State → Flow × State
  | [], st => (.normal, st)
  | s :: ss, st =>
    match execStmt w st s with
    | (.normal, st1) => execStmts w ss st1
    | (fl, st1) => (fl, st1)

/-- A store that ignores the produced value (`void` call). -/
def keep : Data → Locals → Locals := fun _ l => l

/-- Lines 92-179: everything before the loop. -/
def setupStmts : List Stmt :=
  [ .lib 92 (fun _ => .construct .robot) keep,
    .lib 94 (fun _ => .construct .task) keep,
    .lib 96 (fun _ => .construct .I) (fun d l => { l with I := d }),
    .lib 98 (fun _ => .grabberCtor 2) keep,
    .lib 99 (fun l => .g_open l.I) (fun d l => { l with I := d }),
    .lib 101 (fun l => .g_acquire l.I) (fun d l => { l with I := d }),
    .lib 103 (fun l => .displayCtor l.I 100 100 "testDisplayX.cpp ") keep,
    .out 104 (fun _ => .vpTRACE " "),
    .lib 106 (fun l => .display l.I) keep,
    .lib 107 (fun l => .flush l.I) keep,
    .out 110 (fun _ => .cout "\n"),
    .out 111 (fun _ => .cout "-------------------------------------------------------\n"),
    .out 112 (fun _ => .cout " Test program for vpServo \n"),
    .out 113 (fun _ => .cout " Eye-in-hand task control, velocity computed in the camera frame\n"),
    .out 114 (fun _ => .cout " Simulation \n"),
    .out 115 (fun _ => .cout " task : servo a point \n"),
    .out 116 (fun _ => .cout "-------------------------------------------------------\n"),
    .out 117 (fun _ => .cout "\n"),
    .lib 120 (fun _ => .construct .dot) (fun d l => { l with dot := d }),
    .out 122 (fun _ => .cout "Click on a dot...\n"),
    .lib 123 (fun l => .dot_initTracking l.I) (fun d l => { l with dot := d }),
    .lib 125 (fun l => .dot_get_v l.dot) (fun d l => { l with dot_v := d }),
    .lib 126 (fun l => .dot_get_u l.dot) (fun d l => { l with dot_u := d }),
    .lib 124 (fun l => .displayCross l.I l.dot_v l.dot_u 10 .blue) keep,
    .lib 128 (fun l => .flush l.I) keep,
    .lib 130 (fun _ => .construct .cam) (fun d l => { l with cam := d }),
    .out 132 (fun _ => .vpTRACE "sets the current position of the visual feature "),
    .lib 133 (fun _ => .construct .p) (fun d l => { l with p := d }),
    .lib 134 (fun l => .create l.p l.cam l.dot) (fun d l => { l with p := d }),
    .lib 136 (fun _ => .p_set_Z 1) (fun d l => { l with p := d }),
    .out 137 (fun _ => .vpTRACE "sets the desired position of the visual feature "),
    .lib 138 (fun _ => .construct .pd) (fun d l => { l with pd := d }),
    .lib 139 (fun _ => .pd_buildFrom 0 0 1) (fun d l => { l with pd := d }),
    .out 141 (fun _ => .vpTRACE "define the task"),
    .out 142 (fun _ => .vpTRACE "\t we want an eye-in-hand control law"),
    .out 143 (fun _ => .vpTRACE "\t articular velocity are computed"),
    .lib 144 (fun _ => .setServo .EYEINHAND_L_cVe_eJe) keep,
    .lib 145 (fun _ => .setInteractionMatrixType .DESIRED .PSEUDO_INVERSE) keep,
    .out 148 (fun _ => .vpTRACE "Set the position of the camera in the end-effector frame "),
    .lib 149 (fun _ => .construct .cMe) (fun d l => { l with cMe := d }),
    .lib 152 (fun _ => .construct .cVe) (fun d l => { l with cVe := d }),
    .lib 153 (fun _ => .get_cVe) (fun d l => { l with cVe := d }),
    .lib 154 (fun l => .coutTwist l.cVe) keep,
    .lib 155 (fun l => .set_cVe l.cVe) keep,
    .lib 157 (fun l => .getClick l.I) keep,
    .out 158 (fun _ => .vpTRACE "Set the Jacobian (expressed in the end-effector frame)"),
    .lib 159 (fun _ => .construct .eJe) (fun d l => { l with eJe := d }),
    .lib 160 (fun _ => .get_eJe) (fun d l => { l with eJe := d }),
    .lib 161 (fun l => .set_eJe l.eJe) keep,
    .out 164 (fun _ => .vpTRACE "\t we want to see a point on a point.."),
    .out 165 (fun _ => .cout "\n"),
    .lib 166 (fun l => .addFeature l.p l.pd) keep,
    .out 168 (fun _ => .vpTRACE "\t set the gain"),
    .lib 169 (fun _ => .setLambda 8 10) keep,
    .out 172 (fun _ => .vpTRACE "Display task information "),
    .lib 173 (fun _ => .task_print) keep,
    .lib 176 (fun _ => .setRobotState .STATE_VELOCITY_CONTROL) keep,
    .assign 178 (fun l => { l with iter := 0 }),
    .out 179 (fun _ => .vpTRACE "\t loop") ]

/-- Line 180: the controlling expression of `while(1)`. -/
def loopCondition (_ : Locals) : Int := 1

/-- Lines 182-212: the body of the loop. -/
def loopBody : List Stmt :=
  [ .out 182 (fun l => .coutIter "---------------------------------------------" l.iter),
    .lib 184 (fun l => .g_acquire l.I) (fun d l => { l with I := d }),
    .lib 185 (fun l => .display l.I) keep,
    .lib 187 (fun l => .dot_track l.I) (fun d l => { l with dot := d }),
    .lib 190 (fun l => .dot_get_v l.dot) (fun d l => { l with dot_v := d }),
    .lib 191 (fun l => .dot_get_u l.dot) (fun d l => { l with dot_u := d }),
    .lib 189 (fun l => .displayCross l.I l.dot_v l.dot_u 10 .green) keep,
    .lib 195 (fun l => .create l.p l.cam l.dot) (fun d l => { l with p := d }),
    .lib 198 (fun _ => .get_eJe) (fun d l => { l with eJe := d }),
    .lib 199 (fun l => .set_eJe l.eJe) keep,
    .lib 203 (fun _ => .construct .v) (fun d l => { l with v := d }),
    .lib 204 (fun _ => .computeControlLaw) (fun d l => { l with v := d }),
    .lib 206 (fun l => .servoDisplay l.cam l.I) keep,
    .lib 207 (fun l => .v_t l.v) (fun d l => { l with row := d }),
    .lib 207 (fun l => .coutRow l.row) keep,
    .lib 208 (fun l => .setVelocity .ARTICULAR_FRAME l.v) keep,
    .lib 210 (fun l => .flush l.I) keep,
    .lib 212 (fun _ => .error_sumSquare) (fun d l => { l with err := d }),
    .out 212 (fun l => .vpTRACE_f "\t\t || s - s* || = %f " l.err) ]

/-- Lines 215-217: the statements after the loop. -/
def afterLoopStmts : List Stmt :=
  [ .out 215 (fun _ => .vpTRACE "Display task information "),
    .lib 216 (fun _ => .task_print) keep,
    .lib 217 (fun _ => .task_kill) keep ]

/-- Line 221: the one statement of the `catch (...)` handler before `return 0`. -/
def handlerEvent : Event := ⟨221, .vpERROR_TRACE " Test failed", .returns []⟩

/-- `while (cond) { body }`, run for at most `fuel` iterations. Every
iteration that is entered adds its own log to `its`. -/
def whileLoop (w : World) (cond : Locals → Int) (body : List Stmt) :
    Nat → Locals → Nat → List (List Event) → Flow × Locals × Nat × List (List Event)
  | 0, l, c, its => (if cond l ≠ 0 then .unfinished else .normal, l, c, its)
  | fuel + 1, l, c, its =>
    if cond l ≠ 0 then
      match execStmts w body ⟨l, c, []⟩ with
      | (.normal, st) => whileLoop w cond body fuel st.locals st.calls (its ++ [st.log])
      | (fl, st) => (fl, st.locals, st.calls, its ++ [st.log])
    else (.normal, l, c, its)

/-- How a (bounded) run of `main` stands at its end. -/
inductive Outcome
  | running
  | returnedAtEnd
  | returnedFromCatch (code : Int)
  deriving DecidableEq, Repr

/-- What a run of `main` did, phase by phase. -/
structure Run where
  setup : List Event
  iterations : List (List Event)
  afterLoop : List Event
  handler : List Event
  outcome : Outcome
  deriving DecidableEq, Repr

/-- The whole log of a run, in the order of the calls. -/
def Run.trace (r : Run) : List Event :=
  r.setup ++ r.iterations.flatten ++ r.afterLoop ++ r.handler

/-- Lines 219-223: `catch (...) { vpERROR_TRACE(" Test failed") ; return 0; }`. -/
def catchAll (setup : List Event) (its : List (List Event)) (after : List Event) : Run :=
  ⟨setup, its, after, [handlerEvent], .returnedFromCatch 0⟩

/-- Lines 87-224, hardware build: `main`, with the loop bounded by `fuel`
iterations. -/
def main (fuel : Nat) (w : World) : Run :=
  match execStmts w setupStmts ⟨Locals.start, 0, []⟩ with
  | (.normal, st) =>
    match whileLoop w loopCondition loopBody fuel st.locals st.calls [] with
    | (.normal, l, c, its) =>
      match execStmts w afterLoopStmts ⟨l, c, []⟩ with
      | (.normal, st2) => ⟨st.log, its, st2.log, [], .returnedAtEnd⟩
      | (.unfinished, st2) => ⟨st.log, its, st2.log, [], .running⟩
      | (.raised, st2) => catchAll st.log its st2.log
    | (.unfinished, _, _, its) => ⟨st.log, its, [], [], .running⟩
    | (.raised, _, _, its) => catchAll st.log its []
  | (.unfinished, st) => ⟨st.log, [], [], [], .running⟩
  | (.raised, st) => catchAll st.log [] []

/-! Observations on logs, and the notions the proofs use -/

/-- Number of library calls of a block (36 for the set-up phase, 17 for the
loop body). -/
def numLib : List Stmt → Nat
  | [] => 0
  | .lib _ _ _ :: ss => numLib ss + 1
  | .out _ _ :: ss => numLib ss
  | .assign _ _ :: ss => numLib ss

/-- Whether the call of an event ended with an exception. -/
def Event.raised (e : Event) : Bool :=
  match e.result with
  | .throws _ => true
  | .returns _ => false

/-- No event of the log raised. -/
def Clean (evs : List Event) : Prop := ∀ e ∈ evs, e.raised = false

/-- The library calls numbered `a`, ..., `b - 1` all return. -/
def Returns (w : World) (a b : Nat) : Prop := ∀ j, a ≤ j → j < b → ∃ d, w j = .returns d

/-- The events `evs` of a block entered at call number `c` end with the call
number `k`, which raised `x`; every call before it returned. -/
def Faulted (w : World) (c : Nat) (evs : List Event) (k x : Nat) : Prop :=
  ∃ pre e, evs = pre ++ [e] ∧ Clean pre ∧ e.result = .throws x ∧ w k = .throws x ∧ c ≤ k ∧
    Returns w c k

/-- The log of one pass through the loop body, started with locals `l` when
`c` library calls have been made. -/
def bodyLog (w : World) (l : Locals) (c : Nat) : List Event :=
  (execStmts w loopBody ⟨l, c, []⟩).2.log

/-- The log of the set-up phase. -/
def setupLog (w : World) : List Event :=
  (execStmts w setupStmts ⟨Locals.start, 0, []⟩).2.log

/-- Recognises `robot.setVelocity`. -/
def Call.isSetVelocity : Call → Bool
  | .setVelocity _ _ => true
  | _ => false

/-- Recognises `task.computeControlLaw`. -/
def Call.isComputeControlLaw : Call → Bool
  | .computeControlLaw => true
  | _ => false

/-- Recognises `robot.setRobotState`. -/
def Call.isSetRobotState : Call → Bool
  | .setRobotState _ => true
  | _ => false

/-- Recognises `task.setServo`. -/
def Call.isSetServo : Call → Bool
  | .setServo _ => true
  | _ => false

/-- Recognises `robot.get_cVe`. -/
def Call.isGet_cVe : Call → Bool
  | .get_cVe => true
  | _ => false

/-- Recognises `task.set_cVe`. -/
def Call.isSet_cVe : Call → Bool
  | .set_cVe _ => true
  | _ => false

/-- Recognises `robot.get_eJe`. -/
def Call.isGet_eJe : Call → Bool
  | .get_eJe => true
  | _ => false

/-- Recognises `task.set_eJe`. -/
def Call.isSet_eJe : Call → Bool
  | .set_eJe _ => true
  | _ => false

/-- Recognises `vpERROR_TRACE`. -/
def Call.isErrorTrace : Call → Bool
  | .vpERROR_TRACE _ => true
  | _ => false

/-- The four calls that make up one control step: image acquisition, dot
tracking, control law, velocity command. -/
def Call.isLoopStep : Call → Bool
  | .g_acquire _ => true
  | .dot_track _ => true
  | .computeControlLaw => true
  | .setVelocity _ _ => true
  | _ => false

/-- The set-up calls whose order matters: opening the grabber, initialising
the tracker, building the two features, configuring the servo task. -/
def Call.isSetupStep : Call → Bool
  | .g_open _ => true
  | .dot_initTracking _ => true
  | .create _ _ _ => true
  | .pd_buildFrom _ _ _ => true
  | .setServo _ => true
  | .setInteractionMatrixType _ _ => true
  | .set_cVe _ => true
  | .set_eJe _ => true
  | .addFeature _ _ => true
  | .setLambda _ _ => true
  | _ => false

/-- Calls by which `main` writes to the console: `std::cout`, the trace
macros and `task.print`.  (Display calls draw in the image window.) -/
def Call.isConsoleOutput : Call → Bool
  | .cout _ => true
  | .coutIter _ _ => true
  | .vpTRACE _ => true
  | .vpTRACE_f _ _ => true
  | .vpERROR_TRACE _ => true
  | .coutTwist _ => true
  | .coutRow _ => true
  | .task_print => true
  | _ => false

/-- Line and call of an event, without its result. -/
def Event.skel (e : Event) : Nat × Call := (e.line, e.call)

/-- The value a reply carries (nothing for an exception). -/
def val (w : World) (k : Nat) : Data :=
  match w k with
  | .returns d => d
  | .throws _ => []

/-- The events a block logs when every library call returns, call number `k`
with the value `v k`. -/
def pureEvents (v : Nat → Data) : List Stmt → Locals → Nat → List Event
  | [], _, _ => []
  | .lib ln call store :: ss, l, c =>
    ⟨ln, call l, .returns (v c)⟩ :: pureEvents v ss (store (v c) l) (c + 1)
  | .out ln call :: ss, l, c => ⟨ln, call l, .returns []⟩ :: pureEvents v ss l c
  | .assign _ f :: ss, l, c => pureEvents v ss (f l) c

/-- A world in which every call returns: call number `k` yields `[k]`. -/
def calmWorld : World := fun k => .returns [(k : Int)]

/-- A world in which call number 50 (the `setVelocity` of the first iteration)
raises an exception of type 7, and every other call returns. -/
def faultyWorld : World := fun k => if k = 50 then .throws 7 else .returns [(k : Int)]

/-! Block runs -/

theorem execStmts_nil (w : World) (st : State) : execStmts w [] st = (.normal, st) := rfl

theorem execStmts_lib (w : World) (ln : Nat) (call : Locals → Call) (store : Data → Locals → Locals)
    (ss : List Stmt) (l : Locals) (c : Nat) (lg : List Event) :
    execStmts w (.lib ln call store :: ss) ⟨l, c, lg⟩ =
      match w c with
      | .returns d => execStmts w ss ⟨store d l, c + 1, lg ++ [⟨ln, call l, .returns d⟩]⟩
      | .throws x => (.raised, ⟨l, c + 1, lg ++ [⟨ln, call l, .throws x⟩]⟩) := by
  simp only [execStmts, execStmt]
  cases w c <;> rfl

theorem execStmts_out (w : World) (ln : Nat) (call : Locals → Call)
    (ss : List Stmt) (l : Locals) (c : Nat) (lg : List Event) :
    execStmts w (.out ln call :: ss) ⟨l, c, lg⟩ =
      execStmts w ss ⟨l, c, lg ++ [⟨ln, call l, .returns []⟩]⟩ := rfl

theorem execStmts_assign (w : World) (ln : Nat) (f : Locals → Locals)
    (ss : List Stmt) (l : Locals) (c : Nat) (lg : List Event) :
    execStmts w (.assign ln f :: ss) ⟨l, c, lg⟩ =
      execStmts w ss ⟨f l, c, lg⟩ := rfl

theorem clean_nil : Clean [] := by intro e he; cases he

theorem clean_cons {e : Event} {evs : List Event} (he : e.raised = false) (h : Clean evs) :
    Clean (e :: evs) := by
  intro y hy
  rcases List.mem_cons.1 hy with rfl | hy
  · exact he
  · exact h y hy

theorem clean_append {a b : List Event} (ha : Clean a) (hb : Clean b) : Clean (a ++ b) := by
  intro y hy
  rcases List.mem_append.1 hy with hy | hy
  · exact ha y hy
  · exact hb y hy

theorem returns_cons {w : World} {c b : Nat} {d : Data} (h0 : w c = .returns d)
    (h : Returns w (c + 1) b) : Returns w c b := by
  intro j hj hjb
  rcases Nat.eq_or_lt_of_le hj with rfl | hlt
  · exact ⟨d, h0⟩
  · exact h j hlt hjb

theorem returns_trans {w : World} {a b c : Nat} (h1 : Returns w a b) (h2 : Returns w b c) :
    Returns w a c := by
  intro j hj hjc
  by_cases hb : j < b
  · exact h1 j hj hb
  · exact h2 j (Nat.le_of_not_lt hb) hjc

theorem faulted_cons {w : World} {c k x : Nat} {evs : List Event} {e : Event} {d : Data}
    (he : e.raised = false) (h0 : w c = .returns d) (h : Faulted w (c + 1) evs k x) :
    Faulted w c (e :: evs) k x := by
  obtain ⟨pre, y, rfl, hpre, hy, hk, hck, hret⟩ := h
  exact ⟨e :: pre, y, rfl, clean_cons he hpre, hy, hk, by omega, returns_cons h0 hret⟩

theorem faulted_cons_out {w : World} {c k x : Nat} {evs : List Event} {e : Event}
    (he : e.raised = false) (h : Faulted w c evs k x) :
    Faulted w c (e :: evs) k x := by
  obtain ⟨pre, y, rfl, hpre, hy, hk, hck, hret⟩ := h
  exact ⟨e :: pre, y, rfl, clean_cons he hpre, hy, hk, hck, hret⟩

/-- What a block run looks like: either it ends normally, every event
returned and every library call of the block was answered with a value, or
it is left at the first call that raises. -/
theorem execStmts_spec (w : World) : ∀ (ss : List Stmt) (l : Locals) (c : Nat) (lg : List Event),
    ∃ evs, (execStmts w ss ⟨l, c, lg⟩).2.log = lg ++ evs ∧
      (((execStmts w ss ⟨l, c, lg⟩).1 = .normal ∧ Clean evs ∧
          (execStmts w ss ⟨l, c, lg⟩).2.calls = c + numLib ss ∧ Returns w c (c + numLib ss)) ∨
       ((execStmts w ss ⟨l, c, lg⟩).1 = .raised ∧ ∃ k x, Faulted w c evs k x ∧
          (execStmts w ss ⟨l, c, lg⟩).2.calls = k + 1 ∧ k < c + numLib ss)) := by
  intro ss
  induction ss with
  | nil =>
    intro l c lg
    refine ⟨[], by simp [execStmts_nil], Or.inl ⟨rfl, clean_nil, rfl, ?_⟩⟩
    intro j h1 h2
    simp [numLib] at h2
    omega
  | cons s ss ih =>
    intro l c lg
    cases s with
    | lib ln call store =>
      rw [execStmts_lib]
      cases hw : w c with
      | returns d =>
        simp only []
        obtain ⟨evs, hlog, h⟩ := ih (store d l) (c + 1) (lg ++ [⟨ln, call l, .returns d⟩])
        refine ⟨⟨ln, call l, .returns d⟩ :: evs, by simp [hlog], ?_⟩
        rcases h with ⟨hn, hcl, hcalls, hret⟩ | ⟨hr, k, x, hf, hcalls, hk⟩
        · refine Or.inl ⟨hn, clean_cons rfl hcl, ?_, ?_⟩
          · rw [hcalls]; simp [numLib]; omega
          · apply returns_cons hw
            have : c + numLib (Stmt.lib ln call store :: ss) = c + 1 + numLib ss := by
              simp [numLib]; omega
            rw [this]; exact hret
        · refine Or.inr ⟨hr, k, x, faulted_cons rfl hw hf, hcalls, ?_⟩
          simp [numLib]; omega
      | throws x =>
        simp only []
        refine ⟨[⟨ln, call l, .throws x⟩], by simp, Or.inr ⟨by simp, c, x, ?_, by simp, ?_⟩⟩
        · refine ⟨[], _, rfl, clean_nil, rfl, hw, le_refl _, ?_⟩
          intro j h1 h2; omega
        · simp [numLib]
    | out ln call =>
      rw [execStmts_out]
      obtain ⟨evs, hlog, h⟩ := ih l c (lg ++ [⟨ln, call l, .returns []⟩])
      refine ⟨⟨ln, call l, .returns []⟩ :: evs, by simp [hlog], ?_⟩
      rcases h with ⟨hn, hcl, hcalls, hret⟩ | ⟨hr, k, x, hf, hcalls, hk⟩
      · exact Or.inl ⟨hn, clean_cons rfl hcl, by simpa [numLib] using hcalls,
          by simpa [numLib] using hret⟩
      · exact Or.inr ⟨hr, k, x, faulted_cons_out rfl hf, hcalls, by simpa [numLib] using hk⟩
    | assign ln f =>
      rw [execStmts_assign]
      obtain ⟨evs, hlog, h⟩ := ih (f l) c lg
      refine ⟨evs, hlog, ?_⟩
      rcases h with ⟨hn, hcl, hcalls, hret⟩ | ⟨hr, k, x, hf, hcalls, hk⟩
      · exact Or.inl ⟨hn, hcl, by simpa [numLib] using hcalls, by simpa [numLib] using hret⟩
      · exact Or.inr ⟨hr, k, x, hf, hcalls, by simpa [numLib] using hk⟩

theorem whileLoop_zero (w : World) (l : Locals) (c : Nat) (its : List (List Event)) :
    whileLoop w loopCondition loopBody 0 l c its = (.unfinished, l, c, its) := by
  simp [whileLoop, loopCondition]

theorem whileLoop_succ (w : World) (fuel : Nat) (l : Locals) (c : Nat) (its : List (List Event)) :
    whileLoop w loopCondition loopBody (fuel + 1) l c its =
      match execStmts w loopBody ⟨l, c, []⟩ with
      | (.normal, st) =>
        whileLoop w loopCondition loopBody fuel st.locals st.calls (its ++ [st.log])
      | (fl, st) => (fl, st.locals, st.calls, its ++ [st.log]) := by
  simp only [whileLoop, loopCondition]
  rcases execStmts w loopBody ⟨l, c, []⟩ with ⟨fl, st⟩
  cases fl <;> simp

/-- The loop of `main` either uses up its budget, every iteration having run
to its end, or is left by the first call that raises. -/
theorem whileLoop_spec (w : World) :
    ∀ (fuel : Nat) (l : Locals) (c : Nat) (its : List (List Event)),
    (∃ new l1, whileLoop w loopCondition loopBody fuel l c its
          = (.unfinished, l1, c + fuel * numLib loopBody, its ++ new) ∧
        new.length = fuel ∧ (∀ it ∈ new, Clean it) ∧
        Returns w c (c + fuel * numLib loopBody)) ∨
    (∃ init last l1 k x, whileLoop w loopCondition loopBody fuel l c its
          = (.raised, l1, k + 1, its ++ (init ++ [last])) ∧
        init.length < fuel ∧ (∀ it ∈ init, Clean it) ∧
        Faulted w (c + init.length * numLib loopBody) last k x ∧ Returns w c k ∧
        k < c + fuel * numLib loopBody) := by
  intro fuel
  induction fuel with
  | zero =>
    intro l c its
    refine Or.inl ⟨[], l, by simp [whileLoop_zero], rfl, by simp, ?_⟩
    intro j h1 h2
    omega
  | succ fuel ih =>
    intro l c its
    rw [whileLoop_succ]
    obtain ⟨evs, hlog, h⟩ := execStmts_spec w loopBody l c []
    rcases hex : execStmts w loopBody ⟨l, c, []⟩ with ⟨fl, st⟩
    rw [hex] at hlog h
    simp only [List.nil_append] at hlog
    rcases h with ⟨hn, hcl, hcalls, hret⟩ | ⟨hr, k, x, hf, hcalls, hk⟩
    · simp only at hn hcalls
      subst hn
      simp only []
      rcases ih st.locals st.calls (its ++ [st.log]) with
        ⟨new, l1, heq, hlen, hclean, hret2⟩ | ⟨init, last, l1, k, x, heq, hlen, hclean, hf, hret2, hk⟩
      · refine Or.inl ⟨st.log :: new, l1, ?_, by simp [hlen], ?_, ?_⟩
        · rw [heq, hcalls]
          simp [Nat.add_mul, Nat.add_assoc, Nat.add_comm]
        · intro it hit
          rcases List.mem_cons.1 hit with rfl | hit
          · rw [hlog]; exact hcl
          · exact hclean it hit
        · have e1 : c + (fuel + 1) * numLib loopBody
              = c + numLib loopBody + fuel * numLib loopBody := by
            rw [Nat.add_mul]; omega
          rw [e1]
          rw [hcalls] at hret2
          exact returns_trans hret hret2
      · refine Or.inr ⟨st.log :: init, last, l1, k, x, ?_, by simp [hlen], ?_, ?_, ?_, ?_⟩
        · rw [heq]; simp
        · intro it hit
          rcases List.mem_cons.1 hit with rfl | hit
          · rw [hlog]; exact hcl
          · exact hclean it hit
        · have e1 : c + (st.log :: init).length * numLib loopBody
              = st.calls + init.length * numLib loopBody := by
            rw [hcalls, List.length_cons, Nat.add_mul]; omega
          rw [e1]; exact hf
        · rw [hcalls] at hret2
          exact returns_trans hret hret2
        · rw [hcalls] at hk
          rw [Nat.add_mul]; omega
    · simp only at hr hcalls
      subst hr
      simp only []
      refine Or.inr ⟨[], st.log, st.locals, k, x, ?_, by simp, by simp, ?_, ?_, ?_⟩
      · rw [hcalls]; simp
      · rw [hlog]; simpa using hf
      · obtain ⟨pre, e, _, _, _, _, _, hret⟩ := hf
        exact hret
      · rw [Nat.add_mul]; omega

/-- Every iteration log a loop adds is the log of one pass through the body. -/
theorem whileLoop_mem (w : World) :
    ∀ (fuel : Nat) (l : Locals) (c : Nat) (its : List (List Event)),
      ∀ it ∈ (whileLoop w loopCondition loopBody fuel l c its).2.2.2,
        it ∈ its ∨ ∃ l0 c0, it = bodyLog w l0 c0 := by
  intro fuel
  induction fuel with
  | zero =>
    intro l c its it hit
    rw [whileLoop_zero] at hit
    exact Or.inl hit
  | succ fuel ih =>
    intro l c its it hit
    rw [whileLoop_succ] at hit
    have hb : (execStmts w loopBody ⟨l, c, []⟩).2.log = bodyLog w l c := rfl
    rcases hex : execStmts w loopBody ⟨l, c, []⟩ with ⟨fl, st⟩
    rw [hex] at hit hb
    simp only at hb
    cases fl with
    | normal =>
      simp only [] at hit
      rcases ih _ _ _ it hit with h | h
      · rcases List.mem_append.1 h with h | h
        · exact Or.inl h
        · simp only [List.mem_singleton] at h
          exact Or.inr ⟨l, c, by rw [h, hb]⟩
      · exact Or.inr h
    | raised =>
      simp only [] at hit
      rcases List.mem_append.1 hit with h | h
      · exact Or.inl h
      · simp only [List.mem_singleton] at h
        exact Or.inr ⟨l, c, by rw [h, hb]⟩
    | unfinished =>
      simp only [] at hit
      rcases List.mem_append.1 hit with h | h
      · exact Or.inl h
      · simp only [List.mem_singleton] at h
        exact Or.inr ⟨l, c, by rw [h, hb]⟩

/-- The three ways a bounded run of `main` can stand: still looping after all
`fuel` iterations, left by a call of the set-up phase that raised, or left by
a call of a loop iteration that raised. -/
theorem main_cases (fuel : Nat) (w : World) :
    (∃ its, main fuel w = ⟨setupLog w, its, [], [], .running⟩ ∧ Clean (setupLog w) ∧
        its.length = fuel ∧ (∀ it ∈ its, Clean it) ∧
        Returns w 0 (numLib setupStmts + fuel * numLib loopBody)) ∨
    (∃ k x, main fuel w = catchAll (setupLog w) [] [] ∧ Faulted w 0 (setupLog w) k x ∧
        k < numLib setupStmts) ∨
    (∃ init last k x, main fuel w = catchAll (setupLog w) (init ++ [last]) [] ∧
        Clean (setupLog w) ∧ init.length < fuel ∧ (∀ it ∈ init, Clean it) ∧
        Faulted w (numLib setupStmts + init.length * numLib loopBody) last k x ∧
        Returns w 0 k ∧ k < numLib setupStmts + fuel * numLib loopBody) := by
  obtain ⟨evs, hlog, h⟩ := execStmts_spec w setupStmts Locals.start 0 []
  have hs : setupLog w = (execStmts w setupStmts ⟨Locals.start, 0, []⟩).2.log := rfl
  unfold main
  rcases hex : execStmts w setupStmts ⟨Locals.start, 0, []⟩ with ⟨fl, st⟩
  rw [hex] at hlog h hs
  simp only [List.nil_append] at hlog
  simp only at hs
  rcases h with ⟨hn, hcl, hcalls, hret⟩ | ⟨hr, k, x, hf, hcalls, hk⟩
  · simp only at hn hcalls
    subst hn
    simp only [Nat.zero_add] at hcalls hret
    simp only []
    rcases whileLoop_spec w fuel st.locals st.calls [] with
      ⟨new, l1, heq, hlen, hclean, hret2⟩ | ⟨init, last, l1, k, x, heq, hlen, hclean, hf, hret2, hk⟩
    · rw [heq]
      refine Or.inl ⟨new, by simp [hs], by rw [hs, hlog]; exact hcl, hlen, hclean, ?_⟩
      rw [hcalls] at hret2
      exact returns_trans hret hret2
    · rw [heq]
      refine Or.inr (Or.inr ⟨init, last, k, x, by simp [hs], by rw [hs, hlog]; exact hcl,
        hlen, hclean, ?_, ?_, ?_⟩)
      · rw [hcalls] at hf; exact hf
      · rw [hcalls] at hret2
        exact returns_trans hret hret2
      · rw [hcalls] at hk; exact hk
  · simp only at hr hcalls
    subst hr
    simp only []
    refine Or.inr (Or.inl ⟨k, x, by simp [hs], ?_, by simpa using hk⟩)
    rw [hs, hlog]; exact hf

theorem main_setup (fuel : Nat) (w : World) : (main fuel w).setup = setupLog w := by
  rcases main_cases fuel w with ⟨its, h, _⟩ | ⟨k, x, h, _⟩ | ⟨init, last, k, x, h, _⟩ <;>
    rw [h] <;> rfl

theorem main_iterations_mem (fuel : Nat) (w : World) :
    ∀ it ∈ (main fuel w).iterations, ∃ l c, it = bodyLog w l c := by
  intro it hit
  unfold main at hit
  rcases hex : execStmts w setupStmts ⟨Locals.start, 0, []⟩ with ⟨fl, st⟩
  rw [hex] at hit
  cases fl with
  | normal =>
    simp only [] at hit
    have hm := whileLoop_mem w fuel st.locals st.calls [] it
    rcases hw : whileLoop w loopCondition loopBody fuel st.locals st.calls [] with ⟨fl2, l2, c2, its⟩
    rw [hw] at hit hm
    simp only at hm
    have hit2 : it ∈ its := by
      cases fl2 with
      | normal =>
        simp only [] at hit
        rcases hex2 : execStmts w afterLoopStmts ⟨l2, c2, []⟩ with ⟨fl3, st3⟩
        rw [hex2] at hit
        cases fl3 <;> simpa [catchAll] using hit
      | raised => simpa [catchAll] using hit
      | unfinished => simpa using hit
    rcases hm hit2 with h | h
    · cases h
    · exact h
  | raised => simp [catchAll] at hit
  | unfinished => simp at hit

/-! Logs and the exception-free log of a block -/

/-- Whatever the world answers, the calls a block makes are an initial
segment of the calls it makes when nothing raises. -/
theorem execStmts_skel (w : World) : ∀ (ss : List Stmt) (l : Locals) (c : Nat) (lg : List Event),
    ∃ evs, (execStmts w ss ⟨l, c, lg⟩).2.log = lg ++ evs ∧
      evs.map Event.skel <+: (pureEvents (val w) ss l c).map Event.skel ∧
      ((execStmts w ss ⟨l, c, lg⟩).1 = .normal → evs = pureEvents (val w) ss l c) := by
  intro ss
  induction ss with
  | nil =>
    intro l c lg
    exact ⟨[], by simp [execStmts_nil], by simp [pureEvents], fun _ => rfl⟩
  | cons s ss ih =>
    intro l c lg
    cases s with
    | lib ln call store =>
      rw [execStmts_lib]
      cases hw : w c with
      | returns d =>
        have hv : val w c = d := by simp [val, hw]
        obtain ⟨evs, hlog, hsk, hn⟩ := ih (store d l) (c + 1) (lg ++ [⟨ln, call l, .returns d⟩])
        refine ⟨⟨ln, call l, .returns d⟩ :: evs, by simp [hlog], ?_, ?_⟩
        · simp only [pureEvents, hv, List.map_cons]
          exact List.cons_prefix_cons.2 ⟨rfl, hsk⟩
        · intro h
          simp only [pureEvents, hv]
          rw [hn h]
      | throws x =>
        refine ⟨[⟨ln, call l, .throws x⟩], by simp, ?_, ?_⟩
        · simp only [pureEvents, List.map_cons, List.map_nil]
          exact List.cons_prefix_cons.2 ⟨rfl, List.nil_prefix⟩
        · intro h
          simp at h
    | out ln call =>
      rw [execStmts_out]
      obtain ⟨evs, hlog, hsk, hn⟩ := ih l c (lg ++ [⟨ln, call l, .returns []⟩])
      refine ⟨⟨ln, call l, .returns []⟩ :: evs, by simp [hlog], ?_, ?_⟩
      · simp only [pureEvents, List.map_cons]
        exact List.cons_prefix_cons.2 ⟨rfl, hsk⟩
      · intro h
        simp only [pureEvents]
        rw [hn h]
    | assign ln f =>
      rw [execStmts_assign]
      obtain ⟨evs, hlog, hsk, hn⟩ := ih (f l) c lg
      exact ⟨evs, hlog, by simpa [pureEvents] using hsk, fun h => by simpa [pureEvents] using hn h⟩

/-- A block whose log holds no raised event ended normally. -/
theorem execStmts_normal_of_clean (w : World) (ss : List Stmt) (l : Locals) (c : Nat)
    (h : Clean (execStmts w ss ⟨l, c, []⟩).2.log) : (execStmts w ss ⟨l, c, []⟩).1 = .normal := by
  obtain ⟨evs, hlog, hc⟩ := execStmts_spec w ss l c []
  rcases hc with ⟨hn, _⟩ | ⟨_, k, x, ⟨pre, e, rfl, _, he, _⟩, _⟩
  · exact hn
  · exfalso
    have := h e (by rw [hlog]; simp)
    simp [Event.raised, he] at this

theorem log_eq_pure (w : World) (ss : List Stmt) (l : Locals) (c : Nat)
    (h : Clean (execStmts w ss ⟨l, c, []⟩).2.log) :
    (execStmts w ss ⟨l, c, []⟩).2.log = pureEvents (val w) ss l c := by
  obtain ⟨evs, hlog, _, hn⟩ := execStmts_skel w ss l c []
  rw [hlog, hn (execStmts_normal_of_clean w ss l c h)]
  rfl

theorem log_skel (w : World) (ss : List Stmt) (l : Locals) (c : Nat) :
    ((execStmts w ss ⟨l, c, []⟩).2.log).map Event.skel
      <+: (pureEvents (val w) ss l c).map Event.skel := by
  obtain ⟨evs, hlog, hsk, _⟩ := execStmts_skel w ss l c []
  rw [hlog]
  simpa using hsk

/-- A property of line and call that holds for every event of the
exception-free log of a block holds for every event of any log of it. -/
theorem log_forall (w : World) (ss : List Stmt) (l : Locals) (c : Nat) (P : Nat × Call → Prop)
    (h : ∀ e ∈ pureEvents (val w) ss l c, P e.skel) :
    ∀ e ∈ (execStmts w ss ⟨l, c, []⟩).2.log, P e.skel := by
  intro e he
  have h1 : e.skel ∈ (pureEvents (val w) ss l c).map Event.skel :=
    (log_skel w ss l c).subset (List.mem_map_of_mem _ he)
  obtain ⟨y, hy, hye⟩ := List.mem_map.1 h1
  rw [← hye]
  exact h y hy

/-- A kind of call is made at most as often as in the exception-free log. -/
theorem log_countP_le (w : World) (ss : List Stmt) (l : Locals) (c : Nat) (q : Call → Bool) :
    ((execStmts w ss ⟨l, c, []⟩).2.log).countP (fun e => q e.call)
      ≤ (pureEvents (val w) ss l c).countP (fun e => q e.call) := by
  have h := (log_skel w ss l c).sublist.countP_le (fun x : Nat × Call => q x.2)
  simpa [List.countP_map, Function.comp_def, Event.skel] using h

/-! The set-up phase and the loop body -/

/-- Values of `numLib` for the two blocks of `main`. -/
theorem numLib_values : numLib setupStmts = 36 ∧ numLib loopBody = 17 := ⟨rfl, rfl⟩

theorem clean_flatten {its : List (List Event)} (h : ∀ it ∈ its, Clean it) :
    Clean its.flatten := by
  intro e he
  obtain ⟨it, hit, heit⟩ := List.mem_flatten.1 he
  exact h it hit e heit

theorem clean_handler : Clean [handlerEvent] := by
  intro e he
  simp only [List.mem_singleton] at he
  subst he
  rfl

/-- In a log with one raised event, that event is found at one place only. -/
theorem raised_unique : ∀ (a : List Event) {b pre post : List Event} {y e : Event},
    a ++ y :: b = pre ++ e :: post → Clean a → Clean b → e.raised = true →
    pre = a ∧ e = y ∧ post = b := by
  intro a
  induction a with
  | nil =>
    intro b pre post y e h _ hb he
    cases pre with
    | nil =>
      simp only [List.nil_append, List.cons.injEq] at h
      exact ⟨rfl, h.1.symm, h.2.symm⟩
    | cons p0 pre =>
      exfalso
      simp only [List.nil_append, List.cons_append, List.cons.injEq] at h
      have := hb e (by rw [h.2]; simp)
      rw [he] at this
      cases this
  | cons a0 a ih =>
    intro b pre post y e h ha hb he
    cases pre with
    | nil =>
      exfalso
      simp only [List.nil_append, List.cons_append, List.cons.injEq] at h
      have := ha e (by rw [← h.1]; simp)
      rw [he] at this
      cases this
    | cons p0 pre =>
      simp only [List.cons_append, List.cons.injEq] at h
      obtain ⟨h1, h2, h3⟩ := ih h.2 (fun z hz => ha z (List.mem_cons_of_mem _ hz)) hb he
      exact ⟨by rw [h.1, h1], h2, h3⟩

set_option maxRecDepth 100000 in
theorem setupLog_static (w : World) :
    ∀ e ∈ setupLog w, e.line ≤ 179 ∧ e.call.isComputeControlLaw = false ∧
      e.call.isSetVelocity = false ∧ e.call.isErrorTrace = false ∧
      (∀ s, e.call = .setRobotState s → s = .STATE_VELOCITY_CONTROL) ∧
      (∀ t, e.call = .setServo t → t = .EYEINHAND_L_cVe_eJe) := by
  apply log_forall w setupStmts Locals.start 0 (fun x => x.1 ≤ 179 ∧
      x.2.isComputeControlLaw = false ∧
      x.2.isSetVelocity = false ∧ x.2.isErrorTrace = false ∧
      (∀ s, x.2 = .setRobotState s → s = .STATE_VELOCITY_CONTROL) ∧
      (∀ t, x.2 = .setServo t → t = .EYEINHAND_L_cVe_eJe))
  simp [pureEvents, setupStmts, Event.skel, Call.isComputeControlLaw, Call.isSetVelocity,
    Call.isErrorTrace]

set_option maxRecDepth 100000 in
theorem setupLog_counts (w : World) :
    (setupLog w).countP (fun e => e.call.isSetRobotState) ≤ 1 ∧
    (setupLog w).countP (fun e => e.call.isSetServo) ≤ 1 ∧
    (setupLog w).countP (fun e => e.call.isGet_cVe) ≤ 1 ∧
    (setupLog w).countP (fun e => e.call.isSet_cVe) ≤ 1 := by
  refine ⟨?_, ?_, ?_, ?_⟩
  · exact le_trans (log_countP_le w setupStmts Locals.start 0 Call.isSetRobotState) (by
      simp [pureEvents, setupStmts, Call.isSetRobotState])
  · exact le_trans (log_countP_le w setupStmts Locals.start 0 Call.isSetServo) (by
      simp [pureEvents, setupStmts, Call.isSetServo])
  · exact le_trans (log_countP_le w setupStmts Locals.start 0 Call.isGet_cVe) (by
      simp [pureEvents, setupStmts, Call.isGet_cVe])
  · exact le_trans (log_countP_le w setupStmts Locals.start 0 Call.isSet_cVe) (by
      simp [pureEvents, setupStmts, Call.isSet_cVe])

set_option maxRecDepth 100000 in
theorem setupLog_clean (w : World) (h : Clean (setupLog w)) :
    (setupLog w).map (fun e => e.line) =
      [92, 94, 96, 98, 99, 101, 103, 104, 106, 107, 110, 111, 112, 113, 114, 115, 116, 117,
       120, 122, 123, 125, 126, 124, 128, 130, 132, 133, 134, 136, 137, 138, 139, 141, 142,
       143, 144, 145, 148, 149, 152, 153, 154, 155, 157, 158, 159, 160, 161, 164, 165, 166,
       168, 169, 172, 173, 176, 179] ∧
    (∃ I0 I1 p cam dot cVe eJe p1 pd, ((setupLog w).filter (fun e => e.call.isSetupStep)).map
        (fun e => e.call) =
      [.g_open I0, .dot_initTracking I1, .create p cam dot, .pd_buildFrom 0 0 1,
       .setServo .EYEINHAND_L_cVe_eJe, .setInteractionMatrixType .DESIRED .PSEUDO_INVERSE,
       .set_cVe cVe, .set_eJe eJe, .addFeature p1 pd, .setLambda 8 10]) ∧
    (setupLog w).countP (fun e => e.call.isSetRobotState) = 1 ∧
    (setupLog w).countP (fun e => e.call.isSetServo) = 1 ∧
    (setupLog w).countP (fun e => e.call.isGet_cVe) = 1 ∧
    (setupLog w).countP (fun e => e.call.isSet_cVe) = 1 ∧
    (∃ m r, (setupLog w)[41]? = some ⟨153, .get_cVe, .returns m⟩ ∧
      (setupLog w)[43]? = some ⟨155, .set_cVe m, .returns r⟩) ∧
    (∃ d, (setupLog w)[56]? = some ⟨176, .setRobotState .STATE_VELOCITY_CONTROL, .returns d⟩) := by
  have he : setupLog w = pureEvents (val w) setupStmts Locals.start 0 :=
    log_eq_pure w setupStmts Locals.start 0 h
  rw [he]
  simp [pureEvents, setupStmts, keep, Call.isSetRobotState, Call.isSetupStep,
    Call.isSetServo, Call.isGet_cVe, Call.isSet_cVe]

set_option maxRecDepth 100000 in
theorem bodyLog_static (w : World) (l : Locals) (c : Nat) :
    ∀ e ∈ bodyLog w l c, 182 ≤ e.line ∧ e.line ≤ 212 ∧ e.call.isErrorTrace = false ∧
      e.call.isSetRobotState = false ∧ e.call.isSetServo = false ∧
      e.call.isGet_cVe = false ∧ e.call.isSet_cVe = false ∧
      (e.call.isConsoleOutput = true →
        (e.line = 182 ∧ ∃ n, e.call = .coutIter "---------------------------------------------" n) ∨
        (e.line = 207 ∧ ∃ row, e.call = .coutRow row) ∨
        (e.line = 212 ∧ ∃ x, e.call = .vpTRACE_f "\t\t || s - s* || = %f " x)) := by
  apply log_forall w loopBody l c (fun y => 182 ≤ y.1 ∧ y.1 ≤ 212 ∧ y.2.isErrorTrace = false ∧
      y.2.isSetRobotState = false ∧ y.2.isSetServo = false ∧
      y.2.isGet_cVe = false ∧ y.2.isSet_cVe = false ∧
      (y.2.isConsoleOutput = true →
        (y.1 = 182 ∧ ∃ n, y.2 = .coutIter "---------------------------------------------" n) ∨
        (y.1 = 207 ∧ ∃ row, y.2 = .coutRow row) ∨
        (y.1 = 212 ∧ ∃ x, y.2 = .vpTRACE_f "\t\t || s - s* || = %f " x)))
  simp [pureEvents, loopBody, Event.skel, Call.isErrorTrace, Call.isSetRobotState,
    Call.isSetServo, Call.isGet_cVe, Call.isSet_cVe, Call.isConsoleOutput]

set_option maxRecDepth 100000 in
theorem bodyLog_clean (w : World) (l : Locals) (c : Nat) (h : Clean (bodyLog w l c)) :
    (bodyLog w l c).map (fun e => e.line) =
      [182, 184, 185, 187, 190, 191, 189, 195, 198, 199, 203, 204, 206, 207, 207, 208, 210,
        212, 212] ∧
    (∃ I1 I2 v, ((bodyLog w l c).filter (fun e => e.call.isLoopStep)).map (fun e => e.call) =
      [.g_acquire I1, .dot_track I2, .computeControlLaw, .setVelocity .ARTICULAR_FRAME v]) ∧
    (∃ n row r x, (bodyLog w l c).filter (fun e => e.call.isConsoleOutput) =
      [⟨182, .coutIter "---------------------------------------------" n, .returns []⟩,
       ⟨207, .coutRow row, .returns r⟩,
       ⟨212, .vpTRACE_f "\t\t || s - s* || = %f " x, .returns []⟩]) := by
  have he : bodyLog w l c = pureEvents (val w) loopBody l c := log_eq_pure w loopBody l c h
  rw [he]
  simp [pureEvents, loopBody, keep, Call.isLoopStep, Call.isConsoleOutput]

set_option maxRecDepth 100000 in
theorem bodyLog_clean_jacobian (w : World) (l : Locals) (c : Nat) (h : Clean (bodyLog w l c)) :
    ∃ I dot p cam p1 m r0 r1 v,
      (bodyLog w l c)[3]? = some ⟨187, .dot_track I, .returns dot⟩ ∧
      (bodyLog w l c)[7]? = some ⟨195, .create p cam dot, .returns p1⟩ ∧
      (bodyLog w l c)[8]? = some ⟨198, .get_eJe, .returns m⟩ ∧
      (bodyLog w l c)[9]? = some ⟨199, .set_eJe m, .returns r0⟩ ∧
      (bodyLog w l c)[10]? = some ⟨203, .construct .v, .returns r1⟩ ∧
      (bodyLog w l c)[11]? = some ⟨204, .computeControlLaw, .returns v⟩ ∧
      (bodyLog w l c).countP (fun y => y.call.isGet_eJe) = 1 ∧
      (bodyLog w l c).countP (fun y => y.call.isSet_eJe) = 1 ∧
      (bodyLog w l c).countP (fun y => y.call.isComputeControlLaw) = 1 := by
  have he : bodyLog w l c = pureEvents (val w) loopBody l c := log_eq_pure w loopBody l c h
  rw [he]
  simp [pureEvents, loopBody, keep, Call.isGet_eJe, Call.isSet_eJe, Call.isComputeControlLaw]

theorem bodyLog_head (w : World) (l : Locals) (c : Nat) :
    (bodyLog w l c).head? =
      some ⟨182, .coutIter "---------------------------------------------" l.iter, .returns []⟩ := by
  obtain ⟨evs, hlog, _⟩ := execStmts_spec w loopBody.tail l c
    [⟨182, .coutIter "---------------------------------------------" l.iter, .returns []⟩]
  have : bodyLog w l c = (execStmts w loopBody.tail ⟨l, c,
    [⟨182, .coutIter "---------------------------------------------" l.iter, .returns []⟩]⟩).2.log := rfl
  rw [this, hlog]
  rfl

set_option maxHeartbeats 4000000 in
set_option maxRecDepth 10000 in
theorem bodyLog_setVelocity (w : World) (l : Locals) (c : Nat) :
    ∀ e ∈ bodyLog w l c, ∀ f x, e.call = .setVelocity f x →
      f = .ARTICULAR_FRAME ∧ (bodyLog w l c)[11]? = some ⟨204, .computeControlLaw, .returns x⟩ ∧
      (bodyLog w l c)[15]? = some e ∧
      (bodyLog w l c).countP (fun y => y.call.isSetVelocity) = 1 ∧
      (bodyLog w l c).countP (fun y => y.call.isComputeControlLaw) = 1 := by
  simp only [bodyLog, loopBody, execStmts_lib, execStmts_out, execStmts_nil, keep,
    List.nil_append, List.cons_append]
  repeat' split
  all_goals simp [Call.isSetVelocity, Call.isComputeControlLaw]

set_option maxHeartbeats 4000000 in
set_option maxRecDepth 10000 in
theorem bodyLog_computeControlLaw (w : World) (l : Locals) (c : Nat) :
    ∀ e ∈ bodyLog w l c, e.call = .computeControlLaw →
      (bodyLog w l c)[11]? = some e ∧
      (∃ I dot p cam p1 m r0 r1,
        (bodyLog w l c)[3]? = some ⟨187, .dot_track I, .returns dot⟩ ∧
        (bodyLog w l c)[7]? = some ⟨195, .create p cam dot, .returns p1⟩ ∧
        (bodyLog w l c)[8]? = some ⟨198, .get_eJe, .returns m⟩ ∧
        (bodyLog w l c)[9]? = some ⟨199, .set_eJe m, .returns r0⟩ ∧
        (bodyLog w l c)[10]? = some ⟨203, .construct .v, .returns r1⟩) ∧
      (bodyLog w l c).countP (fun y => y.call.isGet_eJe) = 1 ∧
      (bodyLog w l c).countP (fun y => y.call.isSet_eJe) = 1 ∧
      (bodyLog w l c).countP (fun y => y.call.isComputeControlLaw) = 1 := by
  simp only [bodyLog, loopBody, execStmts_lib, execStmts_out, execStmts_nil, keep,
    List.nil_append, List.cons_append]
  repeat' split
  all_goals simp [Call.isGet_eJe, Call.isSet_eJe, Call.isComputeControlLaw]

/-! Runs of main -/

theorem main_iterations_static (fuel : Nat) (w : World) :
    ∀ it ∈ (main fuel w).iterations, ∀ e ∈ it, 182 ≤ e.line ∧ e.line ≤ 212 ∧
      e.call.isErrorTrace = false ∧ e.call.isSetRobotState = false ∧
      e.call.isSetServo = false ∧ e.call.isGet_cVe = false ∧ e.call.isSet_cVe = false := by
  intro it hit e he
  obtain ⟨l, c, rfl⟩ := main_iterations_mem fuel w it hit
  obtain ⟨h1, h2, h3, h4, h5, h6, h7, _⟩ := bodyLog_static w l c e he
  exact ⟨h1, h2, h3, h4, h5, h6, h7⟩

theorem countP_eq_zero_of_forall {p : Event → Bool} {l : List Event}
    (h : ∀ e ∈ l, p e = false) : l.countP p = 0 := by
  rw [List.countP_eq_zero]
  intro e he
  simp [h e he]

theorem countP_flatten_zero {p : Event → Bool} {its : List (List Event)}
    (h : ∀ it ∈ its, ∀ e ∈ it, p e = false) : its.flatten.countP p = 0 := by
  apply countP_eq_zero_of_forall
  intro e he
  obtain ⟨it, hit, heit⟩ := List.mem_flatten.1 he
  exact h it hit e heit

/-- Before the handler runs, no error trace is emitted. -/
theorem no_errorTrace_before_handler (fuel : Nat) (w : World) :
    ((main fuel w).setup ++ (main fuel w).iterations.flatten).countP
      (fun y => y.call.isErrorTrace) = 0 := by
  rw [List.countP_append, main_setup]
  have h1 : (setupLog w).countP (fun y => y.call.isErrorTrace) = 0 :=
    countP_eq_zero_of_forall (fun e he => (setupLog_static w e he).2.2.2.1)
  have h2 : (main fuel w).iterations.flatten.countP (fun y => y.call.isErrorTrace) = 0 :=
    countP_flatten_zero (fun it hit e he => (main_iterations_static fuel w it hit e he).2.2.1)
  rw [h1, h2]

/-- The trace of a run that was left through the handler. -/
theorem trace_catchAll (s : List Event) (its : List (List Event)) :
    (catchAll s its []).trace = s ++ its.flatten ++ [handlerEvent] := by
  simp [Run.trace, catchAll]

theorem main_afterLoop (fuel : Nat) (w : World) : (main fuel w).afterLoop = [] := by
  rcases main_cases fuel w with ⟨its, h, _⟩ | ⟨k, x, h, _⟩ | ⟨init, last, k, x, h, _⟩ <;>
    rw [h] <;> rfl

theorem main_handler (fuel : Nat) (w : World) :
    (main fuel w).handler = [] ∨ (main fuel w).handler = [handlerEvent] := by
  rcases main_cases fuel w with ⟨its, h, _⟩ | ⟨k, x, h, _⟩ | ⟨init, last, k, x, h, _⟩ <;>
    rw [h] <;> simp [catchAll]

theorem main_trace (fuel : Nat) (w : World) :
    (main fuel w).trace
      = setupLog w ++ ((main fuel w).iterations.flatten ++ (main fuel w).handler) := by
  simp [Run.trace, main_afterLoop, main_setup]

/-- A run that entered the loop completed the set-up phase. -/
theorem setup_clean_of_iterations (fuel : Nat) (w : World) (h : (main fuel w).iterations ≠ []) :
    Clean (setupLog w) := by
  rcases main_cases fuel w with ⟨its, _, hsl, _⟩ | ⟨k, x, h1, _⟩ | ⟨init, last, k, x, _, hsl, _⟩
  · exact hsl
  · exfalso
    apply h
    rw [h1]; rfl
  · exact hsl

theorem handler_countP_zero (fuel : Nat) (w : World) (p : Event → Bool)
    (hp : p handlerEvent = false) : (main fuel w).handler.countP p = 0 := by
  rcases main_handler fuel w with h | h <;> rw [h] <;> simp [hp]

/-- A kind of call that neither the loop body nor the handler makes is made
as often in the whole run as in the set-up phase. -/
theorem trace_countP_setup (fuel : Nat) (w : World) (p : Event → Bool)
    (hbody : ∀ it ∈ (main fuel w).iterations, ∀ e ∈ it, p e = false)
    (hp : p handlerEvent = false) :
    (main fuel w).trace.countP p = (setupLog w).countP p := by
  rw [main_trace, List.countP_append, List.countP_append, countP_flatten_zero hbody,
    handler_countP_zero fuel w p hp]
  simp

/-- Where a call that the set-up phase never makes sits in the trace: after
the whole set-up log. -/
theorem after_setup (fuel : Nat) (w : World) {pre post : List Event} {e : Event}
    (htr : (main fuel w).trace = pre ++ e :: post) (he : e ∉ setupLog w) :
    ∃ mid, pre = setupLog w ++ mid ∧
      (main fuel w).iterations.flatten ++ (main fuel w).handler = mid ++ e :: post := by
  rw [main_trace] at htr
  rcases List.append_eq_append_iff.1 htr with ⟨a, ha, hb⟩ | ⟨c, hc, hd⟩
  · exact ⟨a, ha, hb⟩
  · cases c with
    | nil =>
      refine ⟨[], by simpa using hc.symm, by simpa using hd.symm⟩
    | cons c0 c =>
      exfalso
      simp only [List.cons_append, List.cons.injEq] at hd
      apply he
      rw [hc, hd.1]
      simp

theorem whileLoop_acc (w : World) : ∀ (fuel : Nat) (l : Locals) (c : Nat) (its : List (List Event)),
    (whileLoop w loopCondition loopBody fuel l c its).2.2.2
      = its ++ (whileLoop w loopCondition loopBody fuel l c []).2.2.2 := by
  intro fuel
  induction fuel with
  | zero => intro l c its; simp [whileLoop_zero]
  | succ fuel ih =>
    intro l c its
    rw [whileLoop_succ, whileLoop_succ]
    rcases execStmts w loopBody ⟨l, c, []⟩ with ⟨fl, st⟩
    cases fl with
    | normal =>
      simp only []
      rw [ih _ _ (its ++ [st.log]), ih _ _ ([] ++ [st.log])]
      simp
    | raised => simp
    | unfinished => simp

/-- A smaller iteration budget cuts the list of iterations, it does not change them. -/
theorem whileLoop_take (w : World) : ∀ (n m : Nat) (l : Locals) (c : Nat), n ≤ m →
    (whileLoop w loopCondition loopBody n l c []).2.2.2
      = ((whileLoop w loopCondition loopBody m l c []).2.2.2).take n := by
  intro n
  induction n with
  | zero => intro m l c _; simp [whileLoop_zero]
  | succ n ih =>
    intro m l c hnm
    obtain ⟨m, rfl⟩ : ∃ k, m = k + 1 := ⟨m - 1, by omega⟩
    rw [whileLoop_succ, whileLoop_succ]
    rcases execStmts w loopBody ⟨l, c, []⟩ with ⟨fl, st⟩
    cases fl with
    | normal =>
      simp only []
      rw [whileLoop_acc w n, whileLoop_acc w m, ih m st.locals st.calls (by omega)]
      simp
    | raised => simp
    | unfinished => simp

theorem main_iterations_eq (fuel : Nat) (w : World) :
    (main fuel w).iterations =
      match execStmts w setupStmts ⟨Locals.start, 0, []⟩ with
      | (.normal, st) => (whileLoop w loopCondition loopBody fuel st.locals st.calls []).2.2.2
      | _ => [] := by
  unfold main
  rcases execStmts w setupStmts ⟨Locals.start, 0, []⟩ with ⟨fl, st⟩
  cases fl with
  | normal =>
    simp only []
    rcases whileLoop w loopCondition loopBody fuel st.locals st.calls [] with ⟨fl2, l2, c2, its⟩
    cases fl2 with
    | normal =>
      simp only []
      rcases execStmts w afterLoopStmts ⟨l2, c2, []⟩ with ⟨fl3, st3⟩
      cases fl3 <;> rfl
    | raised => rfl
    | unfinished => rfl
  | raised => rfl
  | unfinished => rfl

theorem main_iterations_take (w : World) (n m : Nat) (h : n ≤ m) :
    (main n w).iterations = ((main m w).iterations).take n := by
  rw [main_iterations_eq, main_iterations_eq]
  rcases execStmts w setupStmts ⟨Locals.start, 0, []⟩ with ⟨fl, st⟩
  cases fl with
  | normal => exact whileLoop_take w n m st.locals st.calls h
  | raised => simp
  | unfinished => simp

/-- A run whose set-up calls all return has a set-up log without exception. -/
theorem setup_clean_of_returns (w : World)
    (h : ∀ k < numLib setupStmts, ∃ d, w k = .returns d) : Clean (setupLog w) := by
  rcases main_cases 0 w with ⟨its, _, hsl, _⟩ | ⟨k, x, _, hf, hk⟩ | ⟨init, last, k, x, _, hsl, _⟩
  · exact hsl
  · exfalso
    obtain ⟨p, y, _, _, _, hwk, _⟩ := hf
    obtain ⟨d, hd⟩ := h k hk
    rw [hwk] at hd; cases hd
  · exact hsl

/-- Events of the trace are events of the set-up log, of an iteration, or the
handler's error trace. -/
theorem mem_trace (fuel : Nat) (w : World) {e : Event} (he : e ∈ (main fuel w).trace) :
    e ∈ setupLog w ∨ (∃ it ∈ (main fuel w).iterations, e ∈ it) ∨ e = handlerEvent := by
  rw [main_trace] at he
  rcases List.mem_append.1 he with he | he
  · exact Or.inl he
  · rcases List.mem_append.1 he with he | he
    · exact Or.inr (Or.inl (List.mem_flatten.1 he))
    · rcases main_handler fuel w with h | h
      · rw [h] at he; cases he
      · rw [h] at he
        exact Or.inr (Or.inr (List.mem_singleton.1 he))

/-! The claims -/

/-- C1. Abort on first fault: in every run, once a call has raised, the only
thing `main` still does is to emit the `" Test failed"` error trace, once,
and return 0 from the handler; no call had raised before.  And a world whose
first exception comes at call number `k` does lead there, as soon as the
iteration budget covers call `k`. -/
theorem abort_on_first_fault (fuel : Nat) (w : World) :
    (∀ pre e post, (main fuel w).trace = pre ++ e :: post → e.raised = true →
        post = [handlerEvent] ∧ (main fuel w).handler = [handlerEvent] ∧
        handlerEvent.call = .vpERROR_TRACE " Test failed" ∧
        (main fuel w).trace.countP (fun y => y.call.isErrorTrace) = 1 ∧
        (main fuel w).outcome = .returnedFromCatch 0 ∧
        (∀ y ∈ pre, y.raised = false)) ∧
    (∀ k x, w k = .throws x → (∀ j < k, ∃ d, w j = .returns d) →
        k < numLib setupStmts + fuel * numLib loopBody →
        ∃ pre e, (main fuel w).trace = pre ++ [e, handlerEvent] ∧ e.result = .throws x ∧
          (main fuel w).outcome = .returnedFromCatch 0) := by
  have hcount := no_errorTrace_before_handler fuel w
  rcases main_cases fuel w with ⟨its, h, hsl, hlen, hcl, hret⟩ | ⟨k, x, h, hf, hk⟩ |
      ⟨init, last, k, x, h, hsl, hlen, hcl, hf, hret, hk⟩
  · -- still running: nothing raised
    refine ⟨?_, ?_⟩
    · intro pre e post htr he
      exfalso
      have hclean : Clean (main fuel w).trace := by
        rw [h]
        simp only [Run.trace, List.append_nil]
        exact clean_append hsl (clean_flatten hcl)
      have := hclean e (by rw [htr]; simp)
      rw [he] at this
      cases this
    · intro k x hk hmin hlt
      exfalso
      obtain ⟨d, hd⟩ := hret k (Nat.zero_le _) hlt
      rw [hk] at hd
      cases hd
  · -- a call of the set-up phase raised
    obtain ⟨p, y, hsplit, hp, hy, hwk, _, hretk⟩ := hf
    have htrace : (main fuel w).trace = p ++ y :: [handlerEvent] := by
      rw [h, trace_catchAll, hsplit]; simp
    refine ⟨?_, ?_⟩
    · intro pre e post htr he
      rw [htrace] at htr
      obtain ⟨h1, h2, h3⟩ := raised_unique p htr hp clean_handler he
      refine ⟨h3, by rw [h]; rfl, rfl, ?_, by rw [h]; rfl, by rw [h1]; exact hp⟩
      rw [h] at hcount ⊢
      rw [trace_catchAll, List.countP_append]
      simp only [catchAll] at hcount
      rw [hcount]
      rfl
    · intro k1 x1 hk1 hmin hlt
      have hkk : k1 = k := by
        rcases Nat.lt_trichotomy k1 k with hlt1 | heq | hgt
        · exfalso
          obtain ⟨d, hd⟩ := hretk k1 (Nat.zero_le _) hlt1
          rw [hk1] at hd; cases hd
        · exact heq
        · exfalso
          obtain ⟨d, hd⟩ := hmin k hgt
          rw [hwk] at hd; cases hd
      subst hkk
      rw [hwk] at hk1
      cases hk1
      exact ⟨p, y, by rw [htrace], hy, by rw [h]; rfl⟩
  · -- a call of a loop iteration raised
    obtain ⟨p, y, hsplit, hp, hy, hwk, _, _⟩ := hf
    have htrace : (main fuel w).trace = (setupLog w ++ init.flatten ++ p) ++ y :: [handlerEvent] := by
      rw [h, trace_catchAll, hsplit]; simp
    have hpre : Clean (setupLog w ++ init.flatten ++ p) :=
      clean_append (clean_append hsl (clean_flatten hcl)) hp
    refine ⟨?_, ?_⟩
    · intro pre e post htr he
      rw [htrace] at htr
      obtain ⟨h1, h2, h3⟩ := raised_unique _ htr hpre clean_handler he
      refine ⟨h3, by rw [h]; rfl, rfl, ?_, by rw [h]; rfl, by rw [h1]; exact hpre⟩
      rw [h] at hcount ⊢
      rw [trace_catchAll, List.countP_append]
      simp only [catchAll] at hcount
      rw [hcount]
      rfl
    · intro k1 x1 hk1 hmin hlt
      have hkk : k1 = k := by
        rcases Nat.lt_trichotomy k1 k with hlt1 | heq | hgt
        · exfalso
          obtain ⟨d, hd⟩ := hret k1 (Nat.zero_le _) hlt1
          rw [hk1] at hd; cases hd
        · exact heq
        · exfalso
          obtain ⟨d, hd⟩ := hmin k hgt
          rw [hwk] at hd; cases hd
      subst hkk
      rw [hwk] at hk1
      cases hk1
      exact ⟨_, y, by rw [htrace], hy, by rw [h]; rfl⟩

/-- Witness for C1: in `faultyWorld` call number 50, the `setVelocity` of the
first iteration, raises; the run with one iteration is left through the
handler right after it. -/
theorem abort_on_first_fault_witness :
    faultyWorld 50 = .throws 7 ∧
    (main 1 faultyWorld).trace = (main 1 faultyWorld).trace.take 73 ++
      ⟨208, .setVelocity .ARTICULAR_FRAME [46], .throws 7⟩ :: [handlerEvent] ∧
    (main 1 faultyWorld).trace.countP (fun y => y.call.isErrorTrace) = 1 ∧
    (main 1 faultyWorld).outcome = .returnedFromCatch 0 ∧
    ∃ pre e, (main 1 faultyWorld).trace = pre ++ [e, handlerEvent] ∧ e.result = .throws 7 ∧
      (main 1 faultyWorld).outcome = .returnedFromCatch 0 :=
  ⟨rfl, by decide,
    ((abort_on_first_fault 1 faultyWorld).1 _ _ _
      (by decide : (main 1 faultyWorld).trace = (main 1 faultyWorld).trace.take 73 ++
        ⟨208, .setVelocity .ARTICULAR_FRAME [46], .throws 7⟩ :: [handlerEvent]) rfl).2.2.2.1,
    ((abort_on_first_fault 1 faultyWorld).1 _ _ _
      (by decide : (main 1 faultyWorld).trace = (main 1 faultyWorld).trace.take 73 ++
        ⟨208, .setVelocity .ARTICULAR_FRAME [46], .throws 7⟩ :: [handlerEvent]) rfl).2.2.2.2.1,
    (abort_on_first_fault 1 faultyWorld).2 50 7 rfl
      (fun j hj => ⟨[(j : Int)], by
        have hne : j ≠ 50 := by omega
        simp [faultyWorld, hne]⟩)
      (by decide)⟩

/-- C2. Termination only by exception: `main` never returns by reaching its
end; when it returns, it does so from the handler, with 0, after a call
that raised; when no call raises, the run bounded by `n` iterations makes
all `n` of them, each to its last statement, and is still looping; runs
with a larger bound only add iterations; and lines 215-217, after the loop,
are never executed. -/
theorem termination_only_by_exception (w : World) :
    (∀ fuel, (main fuel w).outcome ≠ .returnedAtEnd ∧ (main fuel w).afterLoop = [] ∧
        ∀ e ∈ (main fuel w).trace, e.line ≠ 215 ∧ e.line ≠ 216 ∧ e.line ≠ 217) ∧
    (∀ fuel code, (main fuel w).outcome = .returnedFromCatch code →
        code = 0 ∧ (main fuel w).handler = [handlerEvent] ∧ (∃ k x, w k = .throws x) ∧
        ∃ pre e, (main fuel w).trace = pre ++ [e, handlerEvent] ∧ e.raised = true) ∧
    ((∀ k, ∃ d, w k = .returns d) →
        ∀ n, (main n w).outcome = .running ∧ (main n w).iterations.length = n ∧
          ∀ it ∈ (main n w).iterations, it.map (fun e => e.line) =
            [182, 184, 185, 187, 190, 191, 189, 195, 198, 199, 203, 204, 206, 207, 207, 208,
              210, 212, 212]) ∧
    (∀ n m, n ≤ m → (main n w).iterations = ((main m w).iterations).take n) := by
  refine ⟨?_, ?_, ?_, fun n m h => main_iterations_take w n m h⟩
  · intro fuel
    refine ⟨?_, main_afterLoop fuel w, ?_⟩
    · rcases main_cases fuel w with ⟨its, h, _⟩ | ⟨k, x, h, _⟩ | ⟨init, last, k, x, h, _⟩ <;>
        rw [h] <;> simp [catchAll]
    · intro e he
      rw [main_trace] at he
      rcases List.mem_append.1 he with he | he
      · have := (setupLog_static w e he).1
        omega
      · rcases List.mem_append.1 he with he | he
        · obtain ⟨it, hit, heit⟩ := List.mem_flatten.1 he
          have := main_iterations_static fuel w it hit e heit
          omega
        · rcases main_handler fuel w with h | h
          · rw [h] at he; cases he
          · rw [h] at he
            simp only [List.mem_singleton] at he
            subst he
            simp [handlerEvent]
  · intro fuel code hout
    rcases main_cases fuel w with ⟨its, h, _⟩ | ⟨k, x, h, hf, _⟩ |
        ⟨init, last, k, x, h, _, _, _, hf, _⟩
    · rw [h] at hout; cases hout
    · obtain ⟨p, y, hsplit, _, hy, hwk, _⟩ := hf
      rw [h] at hout ⊢
      simp only [catchAll, Outcome.returnedFromCatch.injEq] at hout
      refine ⟨hout.symm, rfl, ⟨k, x, hwk⟩, p, y, ?_, by simp [Event.raised, hy]⟩
      rw [trace_catchAll, hsplit]; simp
    · obtain ⟨p, y, hsplit, _, hy, hwk, _⟩ := hf
      rw [h] at hout ⊢
      simp only [catchAll, Outcome.returnedFromCatch.injEq] at hout
      refine ⟨hout.symm, rfl, ⟨k, x, hwk⟩, setupLog w ++ init.flatten ++ p, y, ?_,
        by simp [Event.raised, hy]⟩
      rw [trace_catchAll, hsplit]; simp
  · intro hw n
    have hno : ∀ k x, w k ≠ .throws x := by
      intro k x hk
      obtain ⟨d, hd⟩ := hw k
      rw [hk] at hd; cases hd
    rcases main_cases n w with ⟨its, h, _, hlen, hcl, _⟩ | ⟨k, x, _, hf, _⟩ |
        ⟨init, last, k, x, _, _, _, _, hf, _⟩
    · have hm := main_iterations_mem n w
      rw [h] at hm ⊢
      refine ⟨rfl, hlen, ?_⟩
      intro it hit
      obtain ⟨l, c, rfl⟩ := hm it hit
      exact (bodyLog_clean w l c (hcl _ hit)).1
    · obtain ⟨p, y, _, _, _, hwk, _⟩ := hf
      exact absurd hwk (hno k x)
    · obtain ⟨p, y, _, _, _, hwk, _⟩ := hf
      exact absurd hwk (hno k x)

/-- Witness for C2: `calmWorld` never raises, and the run bounded by three
iterations is still looping after all three; in `faultyWorld` the run
returns, from the handler. -/
theorem termination_only_by_exception_witness :
    ((main 3 calmWorld).outcome = .running ∧ (main 3 calmWorld).iterations.length = 3 ∧
      ∀ it ∈ (main 3 calmWorld).iterations, it.map (fun e => e.line) =
        [182, 184, 185, 187, 190, 191, 189, 195, 198, 199, 203, 204, 206, 207, 207, 208,
          210, 212, 212]) ∧
    (main 1 faultyWorld).outcome = .returnedFromCatch 0 ∧
    (main 1 faultyWorld).handler = [handlerEvent] :=
  ⟨(termination_only_by_exception calmWorld).2.2.1 (fun k => ⟨[(k : Int)], rfl⟩) 3,
    by decide,
    ((termination_only_by_exception faultyWorld).2.1 1 0 (by decide)).2.1⟩

/-- C3. Per-iteration order: an iteration in which no call raised ran all 19
statements of the body in source order; among its calls, image acquisition,
dot tracking, `computeControlLaw` and `setVelocity` occur once each, in
this order; the loop condition is the constant 1, so the next iteration
starts right after (unless the iteration budget of the run ends here, in
which case the run is still looping). -/
theorem iteration_order (fuel : Nat) (w : World) (i : Nat) (it : List Event)
    (hit : (main fuel w).iterations[i]? = some it) (hclean : ∀ e ∈ it, e.raised = false) :
    it.map (fun e => e.line) =
      [182, 184, 185, 187, 190, 191, 189, 195, 198, 199, 203, 204, 206, 207, 207, 208, 210,
        212, 212] ∧
    (∃ I1 I2 v, (it.filter (fun e => e.call.isLoopStep)).map (fun e => e.call) =
      [.g_acquire I1, .dot_track I2, .computeControlLaw, .setVelocity .ARTICULAR_FRAME v]) ∧
    (∀ l, loopCondition l ≠ 0) ∧
    (i + 1 < fuel → ∃ nxt, (main fuel w).iterations[i + 1]? = some nxt ∧
        nxt.head?.map (fun e => e.line) = some 182) ∧
    (i + 1 = fuel → (main fuel w).outcome = .running) := by
  have hmem : it ∈ (main fuel w).iterations := List.getElem?_mem hit
  obtain ⟨l, c, rfl⟩ := main_iterations_mem fuel w it hmem
  have hb := bodyLog_clean w l c hclean
  have hnext : i + 1 < (main fuel w).iterations.length ∨
      (i + 1 = fuel ∧ (main fuel w).outcome = .running) := by
    rcases main_cases fuel w with ⟨its, h, _, hlen, _⟩ | ⟨k, x, h, _⟩ |
        ⟨init, last, k, x, h, _, hlen, _, hf, _⟩
    · rw [h] at hit ⊢
      simp only at hit ⊢
      have hi : i < its.length := by
        by_contra hcon
        rw [List.getElem?_eq_none (by omega)] at hit
        cases hit
      rcases Nat.lt_or_ge (i + 1) its.length with h1 | h1
      · exact Or.inl h1
      · exact Or.inr ⟨by omega, trivial⟩
    · rw [h] at hit
      simp [catchAll] at hit
    · rw [h] at hit ⊢
      simp only [catchAll] at hit ⊢
      left
      by_contra hcon
      have hi : i < (init ++ [last]).length := by
        by_contra hcon2
        rw [List.getElem?_eq_none (by omega)] at hit
        cases hit
      simp only [List.length_append, List.length_singleton] at hi hcon
      have hi2 : i = init.length := by omega
      subst hi2
      simp only [List.getElem?_concat_length, Option.some.injEq] at hit
      obtain ⟨p, y, hsplit, _, hy, _⟩ := hf
      have := hclean y (by rw [← hit, hsplit]; simp)
      simp [Event.raised, hy] at this
  refine ⟨hb.1, hb.2.1, fun _ => by simp [loopCondition], ?_, ?_⟩
  · intro hlt
    rcases hnext with h1 | ⟨h1, _⟩
    · refine ⟨(main fuel w).iterations[i + 1], List.getElem?_eq_getElem h1, ?_⟩
      obtain ⟨l2, c2, h2⟩ := main_iterations_mem fuel w _ (List.getElem_mem h1)
      rw [h2, bodyLog_head]
      rfl
    · omega
  · intro heq
    rcases hnext with h1 | ⟨_, h1⟩
    · exfalso
      rcases main_cases fuel w with ⟨its, h, _, hlen, _⟩ | ⟨k, x, h, _⟩ |
          ⟨init, last, k, x, h, _, hlen, _⟩
      · rw [h] at h1; simp only at h1; omega
      · rw [h] at h1; simp [catchAll] at h1
      · rw [h] at h1; simp [catchAll] at h1; omega
    · exact h1

/-- Witness for C3: iteration 0 of the two-iteration run in `calmWorld`
completes, and iteration 1 starts. -/
theorem iteration_order_witness :
    ∃ it, (main 2 calmWorld).iterations[0]? = some it ∧ (∀ e ∈ it, e.raised = false) ∧
      (∃ I1 I2 v, (it.filter (fun e => e.call.isLoopStep)).map (fun e => e.call) =
        [.g_acquire I1, .dot_track I2, .computeControlLaw, .setVelocity .ARTICULAR_FRAME v]) ∧
      ∃ nxt, (main 2 calmWorld).iterations[1]? = some nxt ∧
        nxt.head?.map (fun e => e.line) = some 182 :=
  ⟨_, rfl, by decide,
    (iteration_order 2 calmWorld 0 _ rfl (by decide)).2.1,
    (iteration_order 2 calmWorld 0 _ rfl (by decide)).2.2.2.1 (by decide)⟩

/-- C4. Set-up order: when no set-up call raises, the set-up phase runs its
58 logged statements in source order, all of them returning; among them
`g.open`, `dot.initTracking`, the creation of `p` from the dot and of `pd`,
`setServo`, `setInteractionMatrixType`, `set_cVe`, `set_eJe`, `addFeature`
and `setLambda` occur in this order; and every image acquisition of the loop
(line 184), every `computeControlLaw` and every `setVelocity` of the run
comes after the whole set-up log; with a budget of at least one iteration
the loop is then entered. -/
theorem setup_order (fuel : Nat) (w : World)
    (h : ∀ k < numLib setupStmts, ∃ d, w k = .returns d) :
    (∀ e ∈ (main fuel w).setup, e.raised = false) ∧
    (main fuel w).setup.map (fun e => e.line) =
      [92, 94, 96, 98, 99, 101, 103, 104, 106, 107, 110, 111, 112, 113, 114, 115, 116, 117,
       120, 122, 123, 125, 126, 124, 128, 130, 132, 133, 134, 136, 137, 138, 139, 141, 142,
       143, 144, 145, 148, 149, 152, 153, 154, 155, 157, 158, 159, 160, 161, 164, 165, 166,
       168, 169, 172, 173, 176, 179] ∧
    (∃ I0 I1 p cam dot cVe eJe p1 pd,
      ((main fuel w).setup.filter (fun e => e.call.isSetupStep)).map (fun e => e.call) =
      [.g_open I0, .dot_initTracking I1, .create p cam dot, .pd_buildFrom 0 0 1,
       .setServo .EYEINHAND_L_cVe_eJe, .setInteractionMatrixType .DESIRED .PSEUDO_INVERSE,
       .set_cVe cVe, .set_eJe eJe, .addFeature p1 pd, .setLambda 8 10]) ∧
    (∀ pre e post, (main fuel w).trace = pre ++ e :: post →
      (e.line = 184 ∨ e.call.isComputeControlLaw = true ∨ e.call.isSetVelocity = true) →
      ∃ mid, pre = (main fuel w).setup ++ mid) ∧
    (0 < fuel → ∃ first, (main fuel w).iterations[0]? = some first ∧
      first.head?.map (fun e => e.line) = some 182) := by
  have hcl := setup_clean_of_returns w h
  obtain ⟨h1, h2, _⟩ := setupLog_clean w hcl
  rw [main_setup]
  refine ⟨hcl, h1, h2, ?_, ?_⟩
  · intro pre e post htr he
    have hne : e ∉ setupLog w := by
      intro hmem
      obtain ⟨g1, g2, g3, _⟩ := setupLog_static w e hmem
      rcases he with he | he | he
      · omega
      · rw [g2] at he; cases he
      · rw [g3] at he; cases he
    obtain ⟨mid, hmid, _⟩ := after_setup fuel w htr hne
    exact ⟨mid, hmid⟩
  · intro hfuel
    have hlen : 0 < (main fuel w).iterations.length := by
      rcases main_cases fuel w with ⟨its, h, _, hlen, _⟩ | ⟨k, x, _, hf, hk⟩ |
          ⟨init, last, k, x, h, _⟩
      · rw [h]; simp only; omega
      · exfalso
        obtain ⟨p, y, _, _, _, hwk, _⟩ := hf
        obtain ⟨d, hd⟩ := h k hk
        rw [hwk] at hd; cases hd
      · rw [h]; simp [catchAll]
    refine ⟨(main fuel w).iterations[0], List.getElem?_eq_getElem hlen, ?_⟩
    obtain ⟨l2, c2, h2⟩ := main_iterations_mem fuel w _ (List.getElem_mem hlen)
    rw [h2, bodyLog_head]
    rfl

/-- Witness for C4: in `calmWorld` no set-up call raises. -/
theorem setup_order_witness :
    (∀ k < numLib setupStmts, ∃ d, calmWorld k = .returns d) ∧
    (∀ e ∈ (main 1 calmWorld).setup, e.raised = false) ∧
    ∃ first, (main 1 calmWorld).iterations[0]? = some first ∧
      first.head?.map (fun e => e.line) = some 182 :=
  ⟨fun k _ => ⟨[(k : Int)], rfl⟩,
    (setup_order 1 calmWorld (fun k _ => ⟨[(k : Int)], rfl⟩)).1,
    (setup_order 1 calmWorld (fun k _ => ⟨[(k : Int)], rfl⟩)).2.2.2.2 (by decide)⟩

/-- C5. Articular velocity command: whenever `setVelocity` is called in an
iteration, its frame is `ARTICULAR_FRAME` and its vector is the value that
`computeControlLaw` returned at line 204 of the same iteration (event 11 of
the iteration, `setVelocity` being event 15; each is called once);
`setVelocity` is called in iterations only; `setServo` is only ever called
with `EYEINHAND_L_cVe_eJe`, in the set-up phase, and exactly once in a run
that enters the loop. -/
theorem articular_velocity_command (fuel : Nat) (w : World) :
    (∀ it ∈ (main fuel w).iterations, ∀ e ∈ it, ∀ f x, e.call = .setVelocity f x →
        f = .ARTICULAR_FRAME ∧ it[11]? = some ⟨204, .computeControlLaw, .returns x⟩ ∧
        it[15]? = some e ∧
        it.countP (fun y => y.call.isSetVelocity) = 1 ∧
        it.countP (fun y => y.call.isComputeControlLaw) = 1) ∧
    (∀ e ∈ (main fuel w).trace, e.call.isSetVelocity = true →
        ∃ it ∈ (main fuel w).iterations, e ∈ it) ∧
    (∀ e ∈ (main fuel w).trace, ∀ t, e.call = .setServo t →
        t = .EYEINHAND_L_cVe_eJe ∧ e ∈ (main fuel w).setup) ∧
    (main fuel w).trace.countP (fun e => e.call.isSetServo) ≤ 1 ∧
    ((main fuel w).iterations ≠ [] →
        (main fuel w).setup.countP (fun e => e.call.isSetServo) = 1 ∧
        (main fuel w).trace.countP (fun e => e.call.isSetServo) = 1) := by
  have hcount : (main fuel w).trace.countP (fun e => e.call.isSetServo)
      = (setupLog w).countP (fun e => e.call.isSetServo) :=
    trace_countP_setup fuel w _
      (fun it hit e he => (main_iterations_static fuel w it hit e he).2.2.2.2.1) rfl
  refine ⟨?_, ?_, ?_, ?_, ?_⟩
  · intro it hit e he f x hc
    obtain ⟨l, c, rfl⟩ := main_iterations_mem fuel w it hit
    exact bodyLog_setVelocity w l c e he f x hc
  · intro e he hc
    rcases mem_trace fuel w he with h | h | h
    · rw [(setupLog_static w e h).2.2.1] at hc; cases hc
    · exact h
    · subst h; cases hc
  · intro e he t hc
    rcases mem_trace fuel w he with h | ⟨it, hit, heit⟩ | h
    · exact ⟨(setupLog_static w e h).2.2.2.2.2 t hc, by rw [main_setup]; exact h⟩
    · have := (main_iterations_static fuel w it hit e heit).2.2.2.2.1
      rw [hc] at this; cases this
    · subst h; cases hc
  · rw [hcount]; exact (setupLog_counts w).2.1
  · intro hne
    have hcl := setup_clean_of_iterations fuel w hne
    have h1 := (setupLog_clean w hcl).2.2.2.1
    rw [hcount, main_setup]
    exact ⟨h1, h1⟩

/-- Witness for C5: the `setVelocity` call of the first iteration in
`calmWorld`. -/
theorem articular_velocity_command_witness :
    (∃ it, (main 1 calmWorld).iterations[0]? = some it ∧
      it[15]? = some ⟨208, .setVelocity .ARTICULAR_FRAME [46], .returns [50]⟩ ∧
      it[11]? = some ⟨204, .computeControlLaw, .returns [46]⟩) ∧
    (main 1 calmWorld).setup.countP (fun e => e.call.isSetServo) = 1 ∧
    (main 1 calmWorld).trace.countP (fun e => e.call.isSetServo) = 1 :=
  ⟨⟨_, rfl,
      ((articular_velocity_command 1 calmWorld).1 _
        (List.getElem?_mem (rfl : (main 1 calmWorld).iterations[0]? = some _))
        ⟨208, .setVelocity .ARTICULAR_FRAME [46], .returns [50]⟩
        (List.getElem?_mem (rfl : _[15]? = some _)) .ARTICULAR_FRAME [46] rfl).2.2.1,
      ((articular_velocity_command 1 calmWorld).1 _
        (List.getElem?_mem (rfl : (main 1 calmWorld).iterations[0]? = some _))
        ⟨208, .setVelocity .ARTICULAR_FRAME [46], .returns [50]⟩
        (List.getElem?_mem (rfl : _[15]? = some _)) .ARTICULAR_FRAME [46] rfl).2.1⟩,
    (articular_velocity_command 1 calmWorld).2.2.2.2 (by decide)⟩

/-- Counterexample to C6 as stated: in the one-iteration run in `calmWorld`,
the first event of iteration 0 is the separator line written to `std::cout`
at line 182; it is console output and it is not the error-norm trace (the
velocity vector written at line 207 is another one). -/
theorem console_output_counterexample :
    ¬ (∀ it ∈ (main 1 calmWorld).iterations, ∀ e ∈ it, e.call.isConsoleOutput = true →
        ∃ x, e.call = .vpTRACE_f "\t\t || s - s* || = %f " x) := by
  intro h
  obtain ⟨x, hx⟩ := h _ (List.getElem?_mem (rfl : (main 1 calmWorld).iterations[0]? = some _))
    ⟨182, .coutIter "---------------------------------------------" 0, .returns []⟩
    (List.getElem?_mem (rfl : _[0]? = some _)) rfl
  cases hx

/-- C6 (as amended). Console output of an iteration: every console output
event of an iteration is the separator line with `iter` (line 182), the
transposed velocity vector (line 207) or the error-norm trace (line 212);
an iteration in which no call raised emits exactly these three, in this
order. -/
theorem iteration_console_output (fuel : Nat) (w : World) :
    (∀ it ∈ (main fuel w).iterations, ∀ e ∈ it, e.call.isConsoleOutput = true →
        (e.line = 182 ∧ ∃ n, e.call = .coutIter "---------------------------------------------" n) ∨
        (e.line = 207 ∧ ∃ row, e.call = .coutRow row) ∨
        (e.line = 212 ∧ ∃ x, e.call = .vpTRACE_f "\t\t || s - s* || = %f " x)) ∧
    (∀ it ∈ (main fuel w).iterations, (∀ e ∈ it, e.raised = false) →
        ∃ n row r x, it.filter (fun e => e.call.isConsoleOutput) =
          [⟨182, .coutIter "---------------------------------------------" n, .returns []⟩,
           ⟨207, .coutRow row, .returns r⟩,
           ⟨212, .vpTRACE_f "\t\t || s - s* || = %f " x, .returns []⟩]) := by
  refine ⟨?_, ?_⟩
  · intro it hit e he hc
    obtain ⟨l, c, rfl⟩ := main_iterations_mem fuel w it hit
    exact (bodyLog_static w l c e he).2.2.2.2.2.2.2 hc
  · intro it hit hcl
    obtain ⟨l, c, rfl⟩ := main_iterations_mem fuel w it hit
    exact (bodyLog_clean w l c hcl).2.2

/-- Witness for C6 (as amended): the console output of iteration 0 in
`calmWorld`. -/
theorem iteration_console_output_witness :
    ∃ it, (main 1 calmWorld).iterations[0]? = some it ∧ (∀ e ∈ it, e.raised = false) ∧
      ∃ n row r x, it.filter (fun e => e.call.isConsoleOutput) =
        [⟨182, .coutIter "---------------------------------------------" n, .returns []⟩,
         ⟨207, .coutRow row, .returns r⟩,
         ⟨212, .vpTRACE_f "\t\t || s - s* || = %f " x, .returns []⟩] :=
  ⟨_, rfl, by decide,
    (iteration_console_output 1 calmWorld).2 _
      (List.getElem?_mem (rfl : (main 1 calmWorld).iterations[0]? = some _)) (by decide)⟩

/-- C7. Jacobian refresh: whenever `computeControlLaw` is called in an
iteration (event 11), the same iteration has before it, in this order,
`dot.track` (event 3), the rebuild of `p` from the tracked dot (event 7),
`robot.get_eJe` (event 8), `task.set_eJe` with the matrix just read
(event 9) and the declaration of `v` (event 10); the Jacobian is read and
set once per iteration.  The twist matrix is read and set at most once in
any run, and exactly once, in the set-up phase and with the matrix read, in
a run that enters the loop.  And every iteration in which no call raised
does all of this: it tracks the dot, rebuilds `p` from it, reads the
Jacobian, sets the matrix just read and then calls `computeControlLaw`,
each once. -/
theorem jacobian_refresh (fuel : Nat) (w : World) :
    (∀ it ∈ (main fuel w).iterations, ∀ e ∈ it, e.call = .computeControlLaw →
      it[11]? = some e ∧
      (∃ I dot p cam p1 m r0 r1,
        it[3]? = some ⟨187, .dot_track I, .returns dot⟩ ∧
        it[7]? = some ⟨195, .create p cam dot, .returns p1⟩ ∧
        it[8]? = some ⟨198, .get_eJe, .returns m⟩ ∧
        it[9]? = some ⟨199, .set_eJe m, .returns r0⟩ ∧
        it[10]? = some ⟨203, .construct .v, .returns r1⟩) ∧
      it.countP (fun y => y.call.isGet_eJe) = 1 ∧
      it.countP (fun y => y.call.isSet_eJe) = 1 ∧
      it.countP (fun y => y.call.isComputeControlLaw) = 1) ∧
    (main fuel w).trace.countP (fun e => e.call.isGet_cVe) ≤ 1 ∧
    (main fuel w).trace.countP (fun e => e.call.isSet_cVe) ≤ 1 ∧
    ((main fuel w).iterations ≠ [] →
      (main fuel w).trace.countP (fun e => e.call.isGet_cVe) = 1 ∧
      (main fuel w).trace.countP (fun e => e.call.isSet_cVe) = 1 ∧
      ∃ m r, (main fuel w).setup[41]? = some ⟨153, .get_cVe, .returns m⟩ ∧
        (main fuel w).setup[43]? = some ⟨155, .set_cVe m, .returns r⟩) ∧
    (∀ it ∈ (main fuel w).iterations, (∀ e ∈ it, e.raised = false) →
      ∃ I dot p cam p1 m r0 r1 v,
        it[3]? = some ⟨187, .dot_track I, .returns dot⟩ ∧
        it[7]? = some ⟨195, .create p cam dot, .returns p1⟩ ∧
        it[8]? = some ⟨198, .get_eJe, .returns m⟩ ∧
        it[9]? = some ⟨199, .set_eJe m, .returns r0⟩ ∧
        it[10]? = some ⟨203, .construct .v, .returns r1⟩ ∧
        it[11]? = some ⟨204, .computeControlLaw, .returns v⟩ ∧
        it.countP (fun y => y.call.isGet_eJe) = 1 ∧
        it.countP (fun y => y.call.isSet_eJe) = 1 ∧
        it.countP (fun y => y.call.isComputeControlLaw) = 1) := by
  have hget : (main fuel w).trace.countP (fun e => e.call.isGet_cVe)
      = (setupLog w).countP (fun e => e.call.isGet_cVe) :=
    trace_countP_setup fuel w _
      (fun it hit e he => (main_iterations_static fuel w it hit e he).2.2.2.2.2.1) rfl
  have hset : (main fuel w).trace.countP (fun e => e.call.isSet_cVe)
      = (setupLog w).countP (fun e => e.call.isSet_cVe) :=
    trace_countP_setup fuel w _
      (fun it hit e he => (main_iterations_static fuel w it hit e he).2.2.2.2.2.2) rfl
  refine ⟨?_, ?_, ?_, ?_, ?_⟩
  · intro it hit e he hc
    obtain ⟨l, c, rfl⟩ := main_iterations_mem fuel w it hit
    exact bodyLog_computeControlLaw w l c e he hc
  · rw [hget]; exact (setupLog_counts w).2.2.1
  · rw [hset]; exact (setupLog_counts w).2.2.2
  · intro hne
    have hcl := setup_clean_of_iterations fuel w hne
    obtain ⟨_, _, _, _, g1, g2, g3, _⟩ := setupLog_clean w hcl
    rw [hget, hset, main_setup]
    exact ⟨g1, g2, g3⟩
  · intro it hit hcl
    obtain ⟨l, c, rfl⟩ := main_iterations_mem fuel w it hit
    exact bodyLog_clean_jacobian w l c hcl

/-- Witness for C7: in the two-iteration run in `calmWorld`, the second
iteration (iteration 1) reads its own Jacobian, `[60]`, sets it, and then calls
`computeControlLaw`; the first iteration had read `[43]`.  The run enters
the loop, and the twist matrix is read and set once, in the set-up phase. -/
theorem jacobian_refresh_witness :
    (∃ it0 it1, (main 2 calmWorld).iterations[0]? = some it0 ∧
      (main 2 calmWorld).iterations[1]? = some it1 ∧
      it0[8]? = some ⟨198, .get_eJe, .returns [43]⟩ ∧
      it1[8]? = some ⟨198, .get_eJe, .returns [60]⟩ ∧
      it1[9]? = some ⟨199, .set_eJe [60], .returns [61]⟩ ∧
      (∀ e ∈ it1, e.raised = false) ∧
      (it1[11]? = some ⟨204, .computeControlLaw, .returns [63]⟩ ∧
        (∃ I dot p cam p1 m r0 r1,
          it1[3]? = some ⟨187, .dot_track I, .returns dot⟩ ∧
          it1[7]? = some ⟨195, .create p cam dot, .returns p1⟩ ∧
          it1[8]? = some ⟨198, .get_eJe, .returns m⟩ ∧
          it1[9]? = some ⟨199, .set_eJe m, .returns r0⟩ ∧
          it1[10]? = some ⟨203, .construct .v, .returns r1⟩) ∧
        it1.countP (fun y => y.call.isGet_eJe) = 1 ∧
        it1.countP (fun y => y.call.isSet_eJe) = 1 ∧
        it1.countP (fun y => y.call.isComputeControlLaw) = 1) ∧
      ∃ I dot p cam p1 m r0 r1 v,
        it1[3]? = some ⟨187, .dot_track I, .returns dot⟩ ∧
        it1[7]? = some ⟨195, .create p cam dot, .returns p1⟩ ∧
        it1[8]? = some ⟨198, .get_eJe, .returns m⟩ ∧
        it1[9]? = some ⟨199, .set_eJe m, .returns r0⟩ ∧
        it1[10]? = some ⟨203, .construct .v, .returns r1⟩ ∧
        it1[11]? = some ⟨204, .computeControlLaw, .returns v⟩ ∧
        it1.countP (fun y => y.call.isGet_eJe) = 1 ∧
        it1.countP (fun y => y.call.isSet_eJe) = 1 ∧
        it1.countP (fun y => y.call.isComputeControlLaw) = 1) ∧
    (main 2 calmWorld).iterations ≠ [] ∧
    (main 2 calmWorld).trace.countP (fun e => e.call.isGet_cVe) = 1 ∧
    (main 2 calmWorld).trace.countP (fun e => e.call.isSet_cVe) = 1 ∧
    ∃ m r, (main 2 calmWorld).setup[41]? = some ⟨153, .get_cVe, .returns m⟩ ∧
      (main 2 calmWorld).setup[43]? = some ⟨155, .set_cVe m, .returns r⟩ :=
  ⟨⟨_, _, rfl, rfl, rfl, rfl, rfl, by decide,
      (jacobian_refresh 2 calmWorld).1 _
        (List.getElem?_mem (rfl : (main 2 calmWorld).iterations[1]? = some _))
        ⟨204, .computeControlLaw, .returns [63]⟩
        (List.getElem?_mem (rfl : _[11]? = some _)) rfl,
      (jacobian_refresh 2 calmWorld).2.2.2.2 _
        (List.getElem?_mem (rfl : (main 2 calmWorld).iterations[1]? = some _)) (by decide)⟩,
    by decide, (jacobian_refresh 2 calmWorld).2.2.2.1 (by decide)⟩

/-- C8. Velocity-control state before any command: a run requests a robot
state at most once, and only `STATE_VELOCITY_CONTROL`; wherever a
`setVelocity` call stands in the trace, the call
`setRobotState(STATE_VELOCITY_CONTROL)` of line 176 stands before it, has
returned, is the only state request before it, and no state request
follows. -/
theorem velocity_control_state (fuel : Nat) (w : World) :
    (main fuel w).trace.countP (fun e => e.call.isSetRobotState) ≤ 1 ∧
    (∀ e ∈ (main fuel w).trace, ∀ s, e.call = .setRobotState s → s = .STATE_VELOCITY_CONTROL) ∧
    (∀ pre e post, (main fuel w).trace = pre ++ e :: post → e.call.isSetVelocity = true →
      (∃ d, (⟨176, .setRobotState .STATE_VELOCITY_CONTROL, .returns d⟩ : Event) ∈ pre) ∧
      pre.countP (fun y => y.call.isSetRobotState) = 1 ∧
      post.countP (fun y => y.call.isSetRobotState) = 0) := by
  have hbody : ∀ it ∈ (main fuel w).iterations, ∀ e ∈ it,
      (fun y : Event => y.call.isSetRobotState) e = false :=
    fun it hit e he => (main_iterations_static fuel w it hit e he).2.2.2.1
  have hcount : (main fuel w).trace.countP (fun e => e.call.isSetRobotState)
      = (setupLog w).countP (fun e => e.call.isSetRobotState) :=
    trace_countP_setup fuel w _ hbody rfl
  refine ⟨?_, ?_, ?_⟩
  · rw [hcount]; exact (setupLog_counts w).1
  · intro e he s hc
    rcases mem_trace fuel w he with h | ⟨it, hit, heit⟩ | h
    · exact (setupLog_static w e h).2.2.2.2.1 s hc
    · have := hbody it hit e heit
      simp only [hc] at this
      cases this
    · subst h; cases hc
  · intro pre e post htr hc
    have hne : e ∉ setupLog w := by
      intro hmem
      rw [(setupLog_static w e hmem).2.2.1] at hc
      cases hc
    obtain ⟨mid, hmid, hrest⟩ := after_setup fuel w htr hne
    have hiter : (main fuel w).iterations ≠ [] := by
      intro hnil
      rw [hnil] at hrest
      simp only [List.flatten_nil, List.nil_append] at hrest
      have hmem : e ∈ (main fuel w).handler := by rw [hrest]; simp
      rcases main_handler fuel w with h | h
      · rw [h] at hmem; cases hmem
      · rw [h] at hmem
        simp only [List.mem_singleton] at hmem
        subst hmem
        cases hc
    have hcl := setup_clean_of_iterations fuel w hiter
    obtain ⟨_, _, g1, _, _, _, _, d, g2⟩ := setupLog_clean w hcl
    have hzero : ((main fuel w).iterations.flatten ++ (main fuel w).handler).countP
        (fun y => y.call.isSetRobotState) = 0 := by
      rw [List.countP_append, countP_flatten_zero hbody, handler_countP_zero fuel w _ rfl]
    rw [hrest, List.countP_append, List.countP_cons] at hzero
    refine ⟨⟨d, ?_⟩, ?_, ?_⟩
    · rw [hmid]
      exact List.mem_append_left _ (List.getElem?_mem g2)
    · rw [hmid, List.countP_append, g1]
      omega
    · omega

/-- Witness for C8: the `setVelocity` call of `faultyWorld` (which raises) has
the state request before it. -/
theorem velocity_control_state_witness :
    (main 1 faultyWorld).trace = (main 1 faultyWorld).trace.take 73 ++
      ⟨208, .setVelocity .ARTICULAR_FRAME [46], .throws 7⟩ :: [handlerEvent] ∧
    (∃ d, (⟨176, .setRobotState .STATE_VELOCITY_CONTROL, .returns d⟩ : Event)
      ∈ (main 1 faultyWorld).trace.take 73) ∧
    ((main 1 faultyWorld).trace.take 73).countP (fun y => y.call.isSetRobotState) = 1 ∧
    [handlerEvent].countP (fun y => y.call.isSetRobotState) = 0 :=
  ⟨by decide,
    (velocity_control_state 1 faultyWorld).2.2 _ _ _
      (by decide : (main 1 faultyWorld).trace = (main 1 faultyWorld).trace.take 73 ++
        ⟨208, .setVelocity .ARTICULAR_FRAME [46], .throws 7⟩ :: [handlerEvent]) rfl⟩

end ServoAfma6
